import Mathlib

/-!
# Verification of go-ytdlp core behaviours

A shallow embedding, in Lean 4, of the core data model and operations of the
go-ytdlp repository (command builder / subprocess orchestration layer around
the yt-dlp executable), together with theorems settling a list of claims
about it.

Conventions used throughout:

* Go strings are modelled as Lean `String` / `List Char`; byte-level versus
  rune-level distinctions do not matter for the inputs involved here.
* Go `time.Time` is modelled as a `Nat` tick counter where `0` is the zero
  time (`IsZero`) and each call of `time.Now` yields the next positive tick,
  so distinct calls yield distinct non-zero values (monotone clock).
* Go maps are modelled as association lists with at most one live binding per
  key, written and read through `goMapGet` / `goMapSet` / `goMapDelete`.
* Fallible Go code is modelled with `Option` / `Except`; a Go runtime panic
  is modelled as an explicit `Except.error` outcome.
* External collaborators (Go standard library: `strings`, `strconv`, `sort`)
  are modelled by executable Lean functions translated from their documented
  behaviour, and for `sort.Slice` from the concrete pdqsort algorithm used by
  the Go runtime, since the claims depend on its (lack of) stability.
-/

/-! ## Go standard-library string helpers -/

/-- Model of Go `unicode.IsSpace` restricted to the characters that can occur
in the inputs of this development (ASCII whitespace plus NEL and NBSP). -/
def goIsSpace (c : Char) : Bool :=
  c = ' ' || c = '\t' || c = '\n' || c = '\x0b' || c = '\x0c' || c = '\r' ||
  c = '\x85' || c = '\xa0'

/-- Whether `pat` is a prefix of `s` (character lists). -/
def listIsPre : List Char → List Char → Bool
  | [], _ => true
  | _ :: _, [] => false
  | a :: as, b :: bs => a = b && listIsPre as bs

/-- Find the first occurrence of the non-empty separator `sep` in `s`,
returning the part before it and the part after it. `none` when `sep` does
not occur. Model of Go `strings.Index` with a split of the string. -/
def goSplitOnce (sep : List Char) : List Char → Option (List Char × List Char)
  | [] => if sep = [] then some ([], []) else none
  | c :: rest =>
      if listIsPre sep (c :: rest) then some ([], (c :: rest).drop sep.length)
      else
        match goSplitOnce sep rest with
        | some (pre, post) => some (c :: pre, post)
        | none => none

/-- Model of Go `strings.SplitN s sep n` for `n ≥ 1` and non-empty `sep`:
split around the first `n-1` occurrences of `sep`; the last element is the
unsplit remainder. -/
def goSplitN (sep : List Char) : Nat → List Char → List (List Char)
  | 0, _ => []
  | 1, s => [s]
  | n + 2, s =>
      match goSplitOnce sep s with
      | none => [s]
      | some (pre, post) => pre :: goSplitN sep (n + 1) post

/-- Model of Go `strings.Contains s sub` for non-empty `sub`. -/
def goContains (s sub : String) : Bool :=
  (goSplitOnce sub.toList s.toList).isSome

/-- Trim whitespace (per `goIsSpace`) from the front of a character list. -/
def goTrimLeftList (s : List Char) : List Char := s.dropWhile goIsSpace

/-- Trim whitespace (per `goIsSpace`) from the end of a character list.
Model of Go `bytes.TrimRightFunc s unicode.IsSpace`. -/
def goTrimRightList (s : List Char) : List Char :=
  (s.reverse.dropWhile goIsSpace).reverse

/-- Model of Go `strings.TrimSpace`. -/
def goTrimSpace (s : String) : String :=
  ⟨goTrimLeftList (goTrimRightList s.toList)⟩

/-- Value of a non-empty list of decimal digits; `none` when empty or when a
non-digit occurs. -/
def goDecDigits : List Char → Option Nat
  | [] => none
  | cs =>
      cs.foldl (fun acc c =>
        match acc with
        | none => none
        | some n => if c.isDigit then some (n * 10 + (c.toNat - '0'.toNat)) else none)
        (some 0)

/-- Model of Go `strconv.ParseFloat` restricted to plain decimal forms
(optional sign, integer digits, optional fractional digits), followed by the
Go conversion `int(f)` which truncates toward zero. Inputs outside this
grammar (including the empty string) take the ignored-error path of the
source and yield `0`. Exponent and hexadecimal float forms never occur in
the progress protocol and are not modelled. -/
def strFloatToInt (s : String) : Int :=
  let core : List Char → Option Nat := fun cs =>
    match goSplitOnce ['.'] cs with
    | none => goDecDigits cs
    | some (intPart, fracPart) =>
        match goDecDigits fracPart with
        | none => none
        | some _ =>
            match intPart with
            | [] => some 0
            | _ => goDecDigits intPart
  match s.toList with
  | '-' :: rest => match core rest with | some n => -(n : Int) | none => 0
  | '+' :: rest => match core rest with | some n => (n : Int) | none => 0
  | cs => match core cs with | some n => (n : Int) | none => 0

/-! ## C1: error classification (`wrapError`, errors file)

Translated from `wrapError` and the error types of the errors file
(`src/unnamed/part_006`). The four Go error wrapper types are one inductive;
`errors.Is(err, exec.ErrDot) || errors.Is(err, exec.ErrNotFound)` is the
`misconfigKind` test on the modelled underlying error. -/

/-- Underlying Go error value handed to `wrapError` (the `error` argument). -/
inductive GoError where
  /-- `exec.ErrNotFound`: executable not found in `$PATH`. -/
  | errNotFound : GoError
  /-- `exec.ErrDot`: executable resolved relative to the current directory. -/
  | errDot : GoError
  /-- `*exec.ExitError` carrying a non-zero exit status. -/
  | exitStatus (code : Int) : GoError
  /-- Any other non-nil error. -/
  | other (msg : String) : GoError
deriving DecidableEq

/-- `errors.Is(err, exec.ErrDot) || errors.Is(err, exec.ErrNotFound)`. -/
def misconfigKind : GoError → Bool
  | .errNotFound => true
  | .errDot => true
  | _ => false

/-- The fields of `Result` that `wrapError` inspects (plus identifying data). -/
structure GoResult where
  executable : String
  exitCode : Int
  stderr : String
deriving DecidableEq

/-- The wrapped error returned by `wrapError`: which of the four error
wrapper types was produced, with the wrapped underlying error. -/
inductive WrappedError where
  | misconfig (e : GoError) : WrappedError
  | exitCode (e : GoError) : WrappedError
  | parsing (e : GoError) : WrappedError
  | unknown (e : GoError) : WrappedError
deriving DecidableEq

/-- Translation of `wrapError(r *Result, err error) (*Result, error)`. -/
def wrapError : Option GoResult → Option GoError → Option GoResult × Option WrappedError
  | r, none => (r, none)
  | none, some e => (none, some (.unknown e))
  | some r, some e =>
      if misconfigKind e then (some r, some (.misconfig e))
      else if r.exitCode ≠ 0 then (some r, some (.exitCode e))
      else if goContains r.stderr "error: no such option" then (some r, some (.parsing e))
      else (some r, some (.unknown e))

/-- The amended classification contract, written from the corrected claim:
a nil error short-circuits to success; a nil `Result` with a non-nil error is
always an unknown error (the misconfig / exit-code / stderr checks are only
reached with a non-nil `Result`); then misconfig-kind errors, non-zero exit
codes, and the `"error: no such option"` stderr marker are checked in that
order; anything else is unknown. -/
def wrapErrorAmendedSpec (r : Option GoResult) (err : Option GoError) :
    Option GoResult × Option WrappedError :=
  match err with
  | none => (r, none)
  | some e =>
      match r with
      | none => (none, some (.unknown e))
      | some res =>
          if misconfigKind e then (some res, some (.misconfig e))
          else if res.exitCode ≠ 0 then (some res, some (.exitCode e))
          else if goContains res.stderr "error: no such option" then
            (some res, some (.parsing e))
          else (some res, some (.unknown e))

/-! ## C10: `Command.SetEnvVar` (command file) -/

/-- Go map read `m[k]` (comma-ok form): first live binding, if any. -/
def goMapGet {α : Type} (m : List (String × α)) (k : String) : Option α :=
  match m.find? (fun p => p.1 = k) with
  | some p => some p.2
  | none => none

/-- Go map write `m[k] = v`: replace the binding of `k`, or add one. -/
def goMapSet {α : Type} (m : List (String × α)) (k : String) (v : α) : List (String × α) :=
  if m.any (fun p => p.1 = k) then
    m.map (fun p => if p.1 = k then (k, v) else p)
  else m ++ [(k, v)]

/-- Go map delete `delete(m, k)`. -/
def goMapDelete {α : Type} (m : List (String × α)) (k : String) : List (String × α) :=
  m.filter (fun p => ¬p.1 = k)

/-- Translation of the body of `Command.SetEnvVar`: an empty value deletes
the binding, otherwise the binding is set. -/
def SetEnvVar (env : List (String × String)) (key value : String) :
    List (String × String) :=
  if value = "" then goMapDelete env key else goMapSet env key value

theorem goMapGet_nil {α : Type} (k : String) : goMapGet ([] : List (String × α)) k = none := rfl

theorem goMapGet_cons {α : Type} (p : String × α) (l : List (String × α)) (k : String) :
    goMapGet (p :: l) k = if p.1 = k then some p.2 else goMapGet l k := by
  by_cases h : p.1 = k <;> simp [goMapGet, List.find?, h]

theorem goMapDelete_cons {α : Type} (p : String × α) (l : List (String × α)) (key : String) :
    goMapDelete (p :: l) key =
      if p.1 = key then goMapDelete l key else p :: goMapDelete l key := by
  by_cases h : p.1 = key <;> simp [goMapDelete, List.filter_cons, h]

theorem goMapGet_delete {α : Type} (m : List (String × α)) (key k : String) :
    goMapGet (goMapDelete m key) k = if k = key then none else goMapGet m k := by
  induction m with
  | nil => simp [goMapDelete, goMapGet_nil]
  | cons p rest ih =>
      rw [goMapDelete_cons]
      by_cases hp : p.1 = key
      · rw [if_pos hp, ih, goMapGet_cons]
        by_cases hk : k = key
        · simp [hk]
        · have hpk : ¬p.1 = k := by rw [hp]; exact fun h => hk h.symm
          simp [hk, hpk]
      · rw [if_neg hp, goMapGet_cons, goMapGet_cons, ih]
        by_cases hpk : p.1 = k
        · have hk : ¬k = key := fun h => hp (hpk.trans h)
          simp [hpk, hk]
        · simp [hpk]

theorem goMapGet_map_replace {α : Type} (m : List (String × α)) (key : String) (v : α) (k : String)
    (hk : ¬k = key) :
    goMapGet (m.map fun p => if p.1 = key then (key, v) else p) k = goMapGet m k := by
  induction m with
  | nil => rfl
  | cons p rest ih =>
      by_cases hp : p.1 = key
      · have hpk : ¬p.1 = k := by rw [hp]; exact fun h => hk h.symm
        have hkey : ¬key = k := fun h => hk h.symm
        simp [goMapGet_cons, hp, hpk, hkey, ih]
      · simp [goMapGet_cons, hp, ih]

theorem goMapGet_map_replace_self {α : Type} (m : List (String × α)) (key : String) (v : α)
    (hmem : m.any (fun p => p.1 = key) = true) :
    goMapGet (m.map fun p => if p.1 = key then (key, v) else p) key = some v := by
  induction m with
  | nil => simp at hmem
  | cons p rest ih =>
      by_cases hp : p.1 = key
      · simp [goMapGet_cons, hp]
      · simp only [List.any_cons, Bool.or_eq_true, decide_eq_true_eq] at hmem
        have hrest : rest.any (fun p => p.1 = key) = true := by
          rcases hmem with h | h
          · exact absurd h hp
          · exact h
        simp [goMapGet_cons, hp, ih hrest]

theorem goMapGet_append_single {α : Type} (m : List (String × α)) (key : String) (v : α) (k : String) :
    goMapGet (m ++ [(key, v)]) k =
      match goMapGet m k with
      | some w => some w
      | none => if key = k then some v else none := by
  induction m with
  | nil => simp [goMapGet_nil, goMapGet_cons]
  | cons p rest ih =>
      by_cases hp : p.1 = k
      · simp [goMapGet_cons, hp]
      · simpa [goMapGet_cons, hp] using ih

theorem goMapGet_not_any_eq_none {α : Type} (m : List (String × α)) (key : String)
    (hmem : m.any (fun p => p.1 = key) = false) : goMapGet m key = none := by
  induction m with
  | nil => rfl
  | cons p rest ih =>
      simp only [List.any_cons, Bool.or_eq_false_iff, decide_eq_false_iff_not] at hmem
      simp [goMapGet_cons, hmem.1, ih hmem.2]

theorem goMapGet_set {α : Type} (m : List (String × α)) (key : String) (v : α) (k : String) :
    goMapGet (goMapSet m key v) k = if k = key then some v else goMapGet m k := by
  unfold goMapSet
  by_cases hany : m.any (fun p => p.1 = key) = true
  · by_cases hk : k = key
    · subst hk; simp [hany, goMapGet_map_replace_self m k v hany]
    · simp [hany, hk, goMapGet_map_replace m key v k hk]
  · have hany' : m.any (fun p => p.1 = key) = false := by
      cases h : m.any (fun p => p.1 = key) with
      | true => exact absurd h hany
      | false => rfl
    by_cases hk : k = key
    · subst hk
      simp [hany', goMapGet_append_single, goMapGet_not_any_eq_none m k hany']
    · simp only [hany', Bool.false_eq_true, if_false, if_neg hk]
      rw [goMapGet_append_single]
      cases h : goMapGet m k with
      | some w => rfl
      | none =>
          have hkey : ¬key = k := fun h => hk h.symm
          simp [hkey]

/-- C1 (counterexample): at the concrete input of a nil `Result` together
with the underlying error `exec.ErrNotFound`, the classifier returns an
unknown error, not the configuration (misconfig) error demanded by the
claim's priority order. -/
theorem wrapError_nilResult_counterexample :
    (wrapError none (some GoError.errNotFound)).2 =
      some (WrappedError.unknown GoError.errNotFound) ∧
    (wrapError none (some GoError.errNotFound)).2 ≠
      some (WrappedError.misconfig GoError.errNotFound) := by
  decide

/-- C1 (amended): classification is applied once, in this priority order:
a nil underlying error short-circuits to success regardless of all other
fields; a nil `Result` with a non-nil underlying error yields an unknown
error (so the remaining checks apply only to non-nil Results); otherwise an
executable-not-found / not-executable error yields a misconfig error; then a
non-zero exit code yields an exit-code error carrying the Result; then a
stderr containing the `"error: no such option"` substring yields a
parsing/version-mismatch error; any other non-nil error yields an unknown
error. -/
theorem wrapError_classification (r : Option GoResult) (err : Option GoError) :
    wrapError r err = wrapErrorAmendedSpec r err := by
  cases err with
  | none => cases r <;> rfl
  | some e => cases r <;> rfl

/-- C10: `SetEnvVar` with an empty value deletes the binding for that key
(the key is absent afterwards); with a non-empty value exactly the binding
for that key is set; in either case every other key's binding is unchanged,
and no binding with an empty-string value is ever stored. -/
theorem SetEnvVar_spec (env : List (String × String)) (key value k : String) :
    goMapGet (SetEnvVar env key value) k =
      if k = key then (if value = "" then none else some value) else goMapGet env k := by
  unfold SetEnvVar
  by_cases hv : value = ""
  · rw [if_pos hv, goMapGet_delete]
    by_cases hk : k = key <;> simp [hk, hv]
  · rw [if_neg hv, goMapGet_set]
    by_cases hk : k = key <;> simp [hk, hv]

/-! ## C4 and C5: the progress decoder (progress file)

Translated from the progress file: `progressTemplateFields`,
`strFloatToInt` (above), `progressHandler.parse`, `ProgressStatus`,
`ProgressUpdate.uuid`. The handler state models the `started` / `finished`
maps plus the tick counter for `time.Now`; the parse function returns the
updated state together with the `ProgressUpdate` handed to the user callback
(`none` when the callback is not invoked). -/

/-- The progress template fields (their count is the expected field count). -/
def progressTemplateFields : List String :=
  ["%(progress.status)s",
   "%(progress.total_bytes,progress.total_bytes_estimate)s",
   "%(progress.downloaded_bytes)s",
   "%(progress.fragment_index)s",
   "%(progress.fragment_count)s",
   "%(info.id)s",
   "%(info.playlist_id)s",
   "%(info.playlist_index)s",
   "%(info.playlist_count)s",
   "%(info.url,info.webpage_url)s",
   "%(progress.filename,progress.tmpfilename,info.filename)s"]

/-- `progressSplitChars` (the `"###"` delimiter). -/
def progressSplitChars : List Char := ['#', '#', '#']

/-- `ProgressStatus.IsCompletedType`: error or finished. -/
def progressStatusIsCompletedType (s : String) : Bool :=
  s = "error" || s = "finished"

/-- `ProgressUpdate` (status is the underlying string of `ProgressStatus`;
times are ticks, `0` meaning the zero time). -/
structure ProgressUpdate where
  status : String
  totalBytes : Int
  downloadedBytes : Int
  fragmentIndex : Int
  fragmentCount : Int
  id : String
  playlistID : String
  playlistIndex : Int
  playlistCount : Int
  url : String
  filename : String
  started : Nat
  finished : Nat
deriving DecidableEq

/-- `ProgressUpdate.uuid`: the composite tracking key. -/
def ProgressUpdate.uuid (p : ProgressUpdate) : String :=
  String.intercalate ":" [p.id, p.playlistID, toString p.playlistIndex, p.filename]

/-- The pure part of `progressHandler.parse` (split, arity check, cleanup,
field conversion); `none` models the early return on a wrong field count. -/
def progressParseFields (input : String) : Option ProgressUpdate :=
  let raw := goSplitN progressSplitChars progressTemplateFields.length input.toList
  if raw.length = progressTemplateFields.length then
    let cleaned := raw.map fun f =>
      let t := goTrimSpace ⟨f⟩
      if t = "NA" then "" else t
    some
      { status := cleaned.getD 0 ""
        totalBytes := strFloatToInt (cleaned.getD 1 "")
        downloadedBytes := strFloatToInt (cleaned.getD 2 "")
        fragmentIndex := strFloatToInt (cleaned.getD 3 "")
        fragmentCount := strFloatToInt (cleaned.getD 4 "")
        id := cleaned.getD 5 ""
        playlistID := cleaned.getD 6 ""
        playlistIndex := strFloatToInt (cleaned.getD 7 "")
        playlistCount := strFloatToInt (cleaned.getD 8 "")
        url := cleaned.getD 9 ""
        filename := cleaned.getD 10 ""
        started := 0
        finished := 0 }
  else none

/-- The state of a `progressHandler`: the two per-key time maps plus the
next `time.Now` tick (always positive). -/
structure ProgressHandlerState where
  started : List (String × Nat)
  finished : List (String × Nat)
  now : Nat
deriving DecidableEq

/-- A fresh handler (`newProgressHandler`) whose first `time.Now` call will
return `t0`. -/
def newProgressHandler (t0 : Nat) : ProgressHandlerState := ⟨[], [], t0⟩

/-- The `update.Started, ok = h.started[uuid]` block of
`progressHandler.parse`: reuse the recorded start tick, or stamp `time.Now`
on first sight. Returns the start time and the updated state. -/
def stampStarted (h : ProgressHandlerState) (key : String) : Nat × ProgressHandlerState :=
  match goMapGet h.started key with
  | some t => (t, h)
  | none => (h.now, { h with started := goMapSet h.started key h.now, now := h.now + 1 })

/-- The `update.Finished, ok = h.finished[uuid]` block of
`progressHandler.parse`: reuse the recorded finish tick; stamp `time.Now`
when the status is a terminal kind and no finish tick is recorded yet;
otherwise the finish time stays the zero time (`0`). -/
def stampFinished (h : ProgressHandlerState) (key status : String) :
    Nat × ProgressHandlerState :=
  match goMapGet h.finished key with
  | some t => (t, h)
  | none =>
      if progressStatusIsCompletedType status then
        (h.now, { h with finished := goMapSet h.finished key h.now, now := h.now + 1 })
      else (0, h)

/-- Translation of `progressHandler.parse`: decode the line; on success,
stamp a start tick for the composite key on first sight, stamp a finish tick
when the status is terminal and none is recorded yet, and hand the populated
update to the callback (the returned `Option ProgressUpdate`). -/
def progressParse (h : ProgressHandlerState) (input : String) :
    ProgressHandlerState × Option ProgressUpdate :=
  match progressParseFields input with
  | none => (h, none)
  | some u0 =>
      let s := stampStarted h u0.uuid
      let f := stampFinished s.2 u0.uuid u0.status
      (f.2, some { u0 with started := s.1, finished := f.1 })

/-- Feeding a list of lines to the handler, keeping only the state. -/
def progressParseAll (h : ProgressHandlerState) (lines : List String) :
    ProgressHandlerState :=
  lines.foldl (fun st l => (progressParse st l).1) h

/-- Well-formedness of a handler state: the clock is positive and every
recorded tick is positive (true of every state reachable from a fresh
handler with a positive initial tick). -/
def ProgressHandlerState.WF (h : ProgressHandlerState) : Prop :=
  1 ≤ h.now ∧ (∀ p ∈ h.started, 1 ≤ p.2) ∧ (∀ p ∈ h.finished, 1 ≤ p.2)

theorem goMapSet_subset {α : Type} (m : List (String × α)) (k : String) (v : α)
    (q : String × α) (hq : q ∈ goMapSet m k v) : q = (k, v) ∨ q ∈ m := by
  unfold goMapSet at hq
  cases hany : m.any (fun p => p.1 = k) with
  | true =>
      simp only [hany, if_true] at hq
      rcases List.mem_map.mp hq with ⟨p, hp, hpq⟩
      by_cases h : p.1 = k
      · left; rw [← hpq, if_pos h]
      · right; rw [← hpq, if_neg h]; exact hp
  | false =>
      simp only [hany, Bool.false_eq_true, if_false] at hq
      rcases List.mem_append.mp hq with h | h
      · right; exact h
      · left; simpa using h

theorem goMapGet_mem {α : Type} (m : List (String × α)) (k : String) (t : α)
    (hget : goMapGet m k = some t) : (k, t) ∈ m := by
  unfold goMapGet at hget
  cases hf : m.find? (fun p => p.1 = k) with
  | none => rw [hf] at hget; cases hget
  | some p =>
      rw [hf] at hget
      injection hget with hpt
      have hp1 : p.1 = k := by simpa using List.find?_some hf
      have hm : p ∈ m := List.mem_of_find?_eq_some hf
      have : (k, t) = p := by
        cases p with
        | mk a b => cases hp1; cases hpt; rfl
      rw [this]; exact hm

theorem stampStarted_WF (h : ProgressHandlerState) (key : String) (hwf : h.WF) :
    (stampStarted h key).2.WF := by
  unfold stampStarted
  cases hget : goMapGet h.started key with
  | some t => exact hwf
  | none =>
      refine ⟨Nat.le_succ_of_le hwf.1, ?_, hwf.2.2⟩
      intro p hp
      rcases goMapSet_subset _ _ _ _ hp with hkv | hm
      · rw [hkv]; exact hwf.1
      · exact hwf.2.1 p hm

theorem stampStarted_get (h : ProgressHandlerState) (key : String) :
    goMapGet (stampStarted h key).2.started key = some (stampStarted h key).1 := by
  unfold stampStarted
  cases hget : goMapGet h.started key with
  | some t => exact hget
  | none => simp only; rw [goMapGet_set, if_pos rfl]

theorem stampStarted_preserve (h : ProgressHandlerState) (key u : String) (t : Nat)
    (hu : goMapGet h.started u = some t) :
    goMapGet (stampStarted h key).2.started u = some t := by
  unfold stampStarted
  cases hget : goMapGet h.started key with
  | some _ => exact hu
  | none =>
      simp only; rw [goMapGet_set]
      by_cases hk : u = key
      · rw [hk] at hu; rw [hu] at hget; cases hget
      · rw [if_neg hk]; exact hu

theorem stampFinished_WF (h : ProgressHandlerState) (key status : String) (hwf : h.WF) :
    (stampFinished h key status).2.WF := by
  unfold stampFinished
  cases hget : goMapGet h.finished key with
  | some t => exact hwf
  | none =>
      by_cases hc : progressStatusIsCompletedType status = true
      · simp only [hc, if_true]
        refine ⟨Nat.le_succ_of_le hwf.1, hwf.2.1, ?_⟩
        intro p hp
        rcases goMapSet_subset _ _ _ _ hp with hkv | hm
        · rw [hkv]; exact hwf.1
        · exact hwf.2.2 p hm
      · simp only [hc, if_false]; exact hwf

theorem stampFinished_started_eq (h : ProgressHandlerState) (key status : String) :
    (stampFinished h key status).2.started = h.started := by
  unfold stampFinished
  cases hget : goMapGet h.finished key with
  | some t => rfl
  | none => by_cases hc : progressStatusIsCompletedType status = true <;> simp [hc]

theorem stampFinished_pos (h : ProgressHandlerState) (key status : String)
    (hwf : h.WF) (hc : progressStatusIsCompletedType status = true) :
    1 ≤ (stampFinished h key status).1 := by
  unfold stampFinished
  cases hget : goMapGet h.finished key with
  | some t => exact hwf.2.2 (key, t) (goMapGet_mem _ _ _ hget)
  | none => simp only [hc, if_true]; exact hwf.1

theorem progressParse_WF (h : ProgressHandlerState) (l : String) (hwf : h.WF) :
    (progressParse h l).1.WF := by
  unfold progressParse
  cases hpf : progressParseFields l with
  | none => exact hwf
  | some u0 =>
      simp only
      exact stampFinished_WF _ _ _ (stampStarted_WF _ _ hwf)

theorem progressParse_started_preserve (h : ProgressHandlerState) (l u : String)
    (t : Nat) (hu : goMapGet h.started u = some t) :
    goMapGet (progressParse h l).1.started u = some t := by
  unfold progressParse
  cases hpf : progressParseFields l with
  | none => exact hu
  | some u0 =>
      simp only
      rw [stampFinished_started_eq]
      exact stampStarted_preserve _ _ _ _ hu

theorem progressParseAll_WF (lines : List String) (h : ProgressHandlerState)
    (hwf : h.WF) : (progressParseAll h lines).WF := by
  induction lines generalizing h with
  | nil => exact hwf
  | cons l ls ih => exact ih _ (progressParse_WF h l hwf)

theorem progressParseAll_started_preserve (lines : List String)
    (h : ProgressHandlerState) (u : String) (t : Nat)
    (hu : goMapGet h.started u = some t) :
    goMapGet (progressParseAll h lines).started u = some t := by
  induction lines generalizing h with
  | nil => exact hu
  | cons l ls ih => exact ih _ (progressParse_started_preserve h l u t hu)

/-- The well-formed progress-protocol line of the claim. -/
def sampleDownloadLine : String :=
  "downloading###4745623###1024###NA###NA###sample-1###NA###NA###NA###https://host/sample-1.mp4###generic - sample-1.mp4"

/-- A terminal-status line carrying the same composite key. -/
def sampleFinishedLine : String :=
  "finished###4745623###4745623###NA###NA###sample-1###NA###NA###NA###https://host/sample-1.mp4###generic - sample-1.mp4"

/-- The composite tracking key of both sample lines. -/
def sampleKey : String := "sample-1::0:generic - sample-1.mp4"

/-- The update decoded from `sampleDownloadLine` when first seen at tick `t0`. -/
def sampleDownloadUpdate (t0 : Nat) : ProgressUpdate :=
  { status := "downloading", totalBytes := 4745623, downloadedBytes := 1024
    fragmentIndex := 0, fragmentCount := 0, id := "sample-1", playlistID := ""
    playlistIndex := 0, playlistCount := 0, url := "https://host/sample-1.mp4"
    filename := "generic - sample-1.mp4", started := t0, finished := 0 }

/-- The update decoded from `sampleFinishedLine` right after the first line
was decoded by a fresh handler whose first tick is `1`. -/
def sampleFinishedUpdate : ProgressUpdate :=
  { status := "finished", totalBytes := 4745623, downloadedBytes := 4745623
    fragmentIndex := 0, fragmentCount := 0, id := "sample-1", playlistID := ""
    playlistIndex := 0, playlistCount := 0, url := "https://host/sample-1.mp4"
    filename := "generic - sample-1.mp4", started := 1, finished := 2 }

/-- C4: decoding the claim's well-formed progress line with a fresh handler
yields an update with status `downloading`, total bytes `4745623`, downloaded
bytes `1024`, id `sample-1`, the url and filename of the line, and a start
time stamped on first sight (the finish time still zero); and every
subsequently decoded line carrying the same composite key and a terminal
status yields an update whose finish time is non-zero while its start time
still equals the tick stamped on first sight. -/
theorem progress_sample_roundtrip (t0 : Nat) (ht : 1 ≤ t0) (mid : List String)
    (line2 : String) (u2 : ProgressUpdate)
    (h2 : (progressParse (progressParseAll
        (progressParse (newProgressHandler t0) sampleDownloadLine).1 mid) line2).2 = some u2)
    (huuid : u2.uuid = sampleKey)
    (hterm : progressStatusIsCompletedType u2.status = true) :
    (progressParse (newProgressHandler t0) sampleDownloadLine).2 =
      some (sampleDownloadUpdate t0) ∧
    u2.started = t0 ∧ u2.finished ≠ 0 := by
  have hstate1 : (progressParse (newProgressHandler t0) sampleDownloadLine).1 =
      ⟨[(sampleKey, t0)], [], t0 + 1⟩ := by rfl
  refine ⟨by rfl, ?_⟩
  set stMid := progressParseAll
    (progressParse (newProgressHandler t0) sampleDownloadLine).1 mid with hstMid
  have hwfMid : stMid.WF := by
    refine progressParseAll_WF mid _ ?_
    rw [hstate1]
    refine ⟨Nat.le_succ_of_le ht, ?_, by intro p hp; cases hp⟩
    intro p hp
    have hps : p = (sampleKey, t0) := List.mem_singleton.mp hp
    rw [hps]
    exact ht
  have hgetMid : goMapGet stMid.started sampleKey = some t0 := by
    refine progressParseAll_started_preserve mid _ _ _ ?_
    rw [hstate1]
    show goMapGet [(sampleKey, t0)] sampleKey = some t0
    rw [goMapGet_cons, if_pos rfl]
  unfold progressParse at h2
  cases hpf : progressParseFields line2 with
  | none => rw [hpf] at h2; cases h2
  | some u0 =>
      rw [hpf] at h2
      simp only at h2
      injection h2 with h2
      have huuid0 : u0.uuid = sampleKey := by
        have h : u2.uuid = u0.uuid := by rw [← h2]; rfl
        rw [← h, huuid]
      have hstatus0 : progressStatusIsCompletedType u0.status = true := by
        have h : u2.status = u0.status := by rw [← h2]
        rw [← h, hterm]
      have hs1 : stampStarted stMid u0.uuid = (t0, stMid) := by
        unfold stampStarted
        rw [huuid0, hgetMid]
      constructor
      · rw [← h2]
        show (stampStarted stMid u0.uuid).1 = t0
        rw [hs1]
      · rw [← h2]
        show (stampFinished (stampStarted stMid u0.uuid).2 u0.uuid u0.status).1 ≠ 0
        rw [hs1]
        show (stampFinished stMid u0.uuid u0.status).1 ≠ 0
        have hpos := stampFinished_pos stMid u0.uuid u0.status hwfMid hstatus0
        omega

/-- C4 witness: the theorem instantiated at tick `1`, no intermediate lines,
and the concrete terminal line, whose decoded update has start tick `1` and
finish tick `2`. -/
theorem progress_sample_roundtrip_witness :
    (progressParse (newProgressHandler 1) sampleDownloadLine).2 =
      some (sampleDownloadUpdate 1) ∧
    sampleFinishedUpdate.started = 1 ∧ sampleFinishedUpdate.finished ≠ 0 :=
  progress_sample_roundtrip 1 (by decide) [] sampleFinishedLine sampleFinishedUpdate
    (by rfl) (by rfl) (by rfl)

/-- C5: a line that fails structural validation (fewer delimiter-separated
fields than the expected field count) is silently ignored: the handler state
is unchanged and the user callback is not invoked; together with the parse
function being total, the decoder never panics and never raises on such
input. -/
theorem progress_malformed_ignored (h : ProgressHandlerState) (s : String)
    (hlen : (goSplitN progressSplitChars progressTemplateFields.length s.toList).length <
      progressTemplateFields.length) :
    progressParse h s = (h, none) := by
  have hpf : progressParseFields s = none := by
    unfold progressParseFields
    simp only
    rw [if_neg (Nat.ne_of_lt hlen)]
  unfold progressParse
  rw [hpf]

/-- C5 witness: a truncated two-field line is ignored by a fresh handler. -/
theorem progress_malformed_ignored_witness :
    (goSplitN progressSplitChars progressTemplateFields.length
      "downloading###1024".toList).length < progressTemplateFields.length ∧
    progressParse (newProgressHandler 1) "downloading###1024" =
      (newProgressHandler 1, none) :=
  ⟨by decide, progress_malformed_ignored (newProgressHandler 1) "downloading###1024"
    (by decide)⟩

/-! ## C6: flag replacement and removal (command file of the windows build)

Translated from `Flag`, `Command.addFlag` and `Command.removeFlagByID` of
the self-contained windows-build command file. `removeFlagByID` ranges over
a snapshot of the slice header taken at loop entry while re-assigning
`c.flags` through the shared backing array inside the loop; the embedding
models the backing array and the live length explicitly so that this
aliasing is preserved. A Go runtime panic (slice bounds out of range) is an
explicit `Except.error`. -/

/-- `Flag` of the windows-build command file (named `CmdFlag` here because
Mathlib already owns the name `Flag`): `Args == nil` (modelled as `none`)
marks a boolean flag. -/
structure CmdFlag where
  id : String
  flag : String
  args : Option (List String)
deriving DecidableEq

/-- The loop of `addFlag` for a boolean flag: replace the first flag with
the same ID in place and stop; append when no flag carries the ID. -/
def replaceFirstByID : List CmdFlag → CmdFlag → List CmdFlag
  | [], f => [f]
  | ff :: rest, f => if ff.id = f.id then f :: rest else ff :: replaceFirstByID rest f

/-- Translation of `Command.addFlag`: boolean flags (nil `Args`) replace an
existing flag with the same ID; any other flag is appended. -/
def addFlag (flags : List CmdFlag) (f : CmdFlag) : List CmdFlag :=
  match f.args with
  | none => replaceFirstByID flags f
  | some _ => flags ++ [f]

/-- A Go slice of flags: the shared backing array (whose length is the
capacity) together with the live length. -/
structure GoFlagSlice where
  backing : List CmdFlag
  len : Nat
deriving DecidableEq

/-- One `c.flags = append(c.flags[:i], c.flags[i+1:]...)` step on the
current slice (backing array `backing`, live length `len`): Go first
evaluates `c.flags[i+1:]`, which is `c.flags[i+1:len]` and panics when
`i+1 > len`; otherwise the elements `backing[i+1:len]` are copied one slot
to the left in place (positions from `len-1` on keep their stale values)
and the live length shrinks by one. -/
def goFlagsRemoveAt (s : GoFlagSlice) (i : Nat) : Except String GoFlagSlice :=
  if i + 1 ≤ s.len then
    Except.ok
      ⟨s.backing.take i ++ (s.backing.drop (i + 1)).take (s.len - 1 - i) ++
        s.backing.drop (s.len - 1), s.len - 1⟩
  else Except.error "slice bounds out of range"

/-- The placeholder read for an in-bounds index (the loop index is always
below the backing length, so the default is never returned). -/
def dummyFlag : CmdFlag := ⟨"", "", none⟩

/-- The loop of `removeFlagByID`: `for i, f := range c.flags` iterates `i`
up to the length captured at loop entry while reading `f` through the
shared backing array, which sees the in-place shifts. -/
def removeFlagByIDLoop (idv : String) : Nat → Nat → GoFlagSlice → Except String GoFlagSlice
  | 0, _, s => Except.ok s
  | r + 1, i, s =>
      let f := s.backing.getD i dummyFlag
      if f.id = idv then
        match goFlagsRemoveAt s i with
        | Except.ok s' => removeFlagByIDLoop idv r (i + 1) s'
        | Except.error e => Except.error e
      else removeFlagByIDLoop idv r (i + 1) s

/-- Translation of `Command.removeFlagByID`: run the loop over the captured
range; the resulting flag slice is the backing array truncated to the live
length. `Except.error` models the runtime panic. -/
def removeFlagByID (flags : List CmdFlag) (idv : String) : Except String (List CmdFlag) :=
  match removeFlagByIDLoop idv flags.length 0 ⟨flags, flags.length⟩ with
  | Except.ok s => Except.ok (s.backing.take s.len)
  | Except.error e => Except.error e

/-- C6: the flag-set invariant. The `addFlag` half of the claim holds:
adding a second boolean (non-repeatable) flag with the same ID leaves
exactly one active flag with that ID — the second replaces the first. The
removal half fails on the code: `removeFlagByID` re-slices `c.flags` inside
a `range` loop over the captured header, so with several flags sharing the
ID the shifted elements are skipped — removing ID `x` from
`[x, x, y]` returns with a flag of ID `x` still active, and on `[x, x]` the
re-slice `c.flags[i+1:]` runs past the live length and panics. -/
theorem removeFlagByID_leaves_matching_flag :
    addFlag (addFlag [] ⟨"x", "-a", none⟩) ⟨"x", "-b", none⟩ = [⟨"x", "-b", none⟩] ∧
    removeFlagByID
        [⟨"x", "-a", some ["1"]⟩, ⟨"x", "-b", some ["2"]⟩, ⟨"y", "-c", some ["3"]⟩] "x" =
      Except.ok [⟨"x", "-b", some ["2"]⟩, ⟨"y", "-c", some ["3"]⟩] ∧
    ((([⟨"x", "-b", some ["2"]⟩, ⟨"y", "-c", some ["3"]⟩] : List CmdFlag)).filter
        (fun f => f.id = "x")).length = 1 ∧
    removeFlagByID [⟨"x", "-a", some ["1"]⟩, ⟨"x", "-b", some ["2"]⟩] "x" =
      Except.error "slice bounds out of range" :=
  ⟨rfl, rfl, rfl, rfl⟩

/-! ## C2 and C3: the installer (install file and the yt-dlp install file)

Translated from `verifyFileChecksum` (install file) and `Install` (yt-dlp
install file). External interactions (the atomic cache cell, the lock, file
resolution, subprocess version queries, HTTP downloads, the OpenPGP
signature check, the SHA-256 digest of the downloaded artifact, the rename)
are driven by an oracle environment recording what each interaction would
yield, and the model returns the result together with the ordered trace of
interaction events, so that statements about which interactions happen (a
second cache read, a rename) are statements about the trace. -/

/-- `ResolvedInstall`. -/
structure ResolvedInstall where
  executable : String
  version : String
  fromCache : Bool
  downloaded : Bool
deriving DecidableEq

/-- The error returned by `verifyFileChecksum`. -/
inductive VerifyError where
  /-- "unable to check detached signature" — the checksum manifest was not
  signed by the embedded public key. -/
  | signature : VerifyError
  /-- "checksum mismatch: expected ..., got ..." -/
  | checksumMismatch (expected got : String) : VerifyError
  /-- "unable to find checksum for ..." -/
  | notFound (base : String) : VerifyError
deriving DecidableEq

/-- Model of Go `strings.Fields` (split around runs of whitespace): one
pass over the characters with the current word accumulated in reverse. -/
def goFieldsAux : List Char → List Char → List (List Char)
  | [], acc => if acc = [] then [] else [acc.reverse]
  | c :: rest, acc =>
      if goIsSpace c then
        if acc = [] then goFieldsAux rest []
        else acc.reverse :: goFieldsAux rest []
      else goFieldsAux rest (c :: acc)

/-- Model of Go `strings.Fields` on strings. -/
def goFields (s : String) : List String :=
  (goFieldsAux s.toList []).map fun w => ⟨w⟩

/-- Model of Go `filepath.Base` (slash-separated paths). -/
def goFilepathBase (p : String) : String :=
  if p = "" then "."
  else
    let cs := p.toList.reverse.dropWhile (fun c => c = '/')
    match cs.takeWhile (fun c => ¬c = '/') with
    | [] => "/"
    | w => ⟨w.reverse⟩

/-- The data `verifyFileChecksum` reads from the world: whether the
detached-signature check against the embedded public key succeeds, the
scanner lines of the checksum manifest, and the hex SHA-256 digest of the
target file. -/
structure ChecksumInput where
  sigOK : Bool
  checksumLines : List String
  targetHash : String
deriving DecidableEq

/-- The manifest scan loop of `verifyFileChecksum`: lines that do not have
exactly two fields are skipped; the first line whose second field names the
expected artifact decides the outcome (hash equal → ok, else checksum
mismatch); reaching the end is the not-found error. -/
def verifyScanLines (lines : List String) (checkAgainst sum targetPath : String) :
    Except VerifyError Unit :=
  match lines with
  | [] => Except.error (.notFound (goFilepathBase targetPath))
  | line :: rest =>
      let fields := goFields line
      if fields.length = 2 then
        if fields.getD 1 "" = checkAgainst then
          if fields.getD 0 "" = sum then Except.ok ()
          else Except.error (.checksumMismatch (fields.getD 0 "") sum)
        else verifyScanLines rest checkAgainst sum targetPath
      else verifyScanLines rest checkAgainst sum targetPath

/-- Translation of `verifyFileChecksum`: default the comparison name to the
base of the target path; verify the detached signature first; then scan the
manifest for the expected artifact name and compare digests. -/
def verifyFileChecksum (input : ChecksumInput) (targetPath checkAgainst : String) :
    Except VerifyError Unit :=
  let against := if checkAgainst = "" then goFilepathBase targetPath else checkAgainst
  if input.sigOK then verifyScanLines input.checksumLines against input.targetHash targetPath
  else Except.error .signature

/-- One interaction of `Install` with the world, in execution order. -/
inductive InstallEvent where
  /-- `ytdlpResolveCache.Load()`. -/
  | loadCache : InstallEvent
  /-- `ytdlpInstallLock.Lock()`. -/
  | lockAcquire : InstallEvent
  /-- A `resolveExecutable` call. -/
  | resolve : InstallEvent
  /-- A `ytdlpGetVersion` subprocess call. -/
  | versionQuery : InstallEvent
  /-- A `downloadFile` call (network I/O), labelled by what is fetched. -/
  | download (what : String) : InstallEvent
  /-- The `verifyFileChecksum` call. -/
  | verifyChecksum : InstallEvent
  /-- The `os.Rename` of the temporary artifact to its final name. -/
  | rename : InstallEvent
  /-- `ytdlpResolveCache.Store(resolved)`. -/
  | storeCache : InstallEvent
deriving DecidableEq

/-- The errors `Install` can return. -/
inductive InstallError where
  | versionQueryFailed : InstallError
  | versionMismatch (expected got : String) : InstallError
  | notFoundDownloadDisabled : InstallError
  | unsupportedPlatform : InstallError
  | cacheDirFailed : InstallError
  | downloadFailed (what : String) : InstallError
  | verifyFailed (e : VerifyError) : InstallError
  | renameFailed : InstallError
  | resolveAfterDownloadFailed : InstallError
deriving DecidableEq

/-- The oracle environment for one `Install` call: the options plus what
each external interaction would yield. -/
structure InstallEnv where
  disableDownload : Bool
  disableChecksum : Bool
  disableSystem : Bool
  allowVersionMismatch : Bool
  /-- What `ytdlpResolveCache.Load()` returns. -/
  cacheCell : Option ResolvedInstall
  /-- `ytdlpGetDownloadBinary`: the platform source asset name (`none` when
  the platform is unsupported) and the destination binary names. -/
  binSrc : Option String
  binDest : List String
  /-- Outcome of the pre-download `resolveExecutable` (`none` = error). -/
  resolveFirst : Option ResolvedInstall
  /-- Outcome of `ytdlpGetVersion` on the pre-download resolution. -/
  versionQuery : Option String
  /-- The `Version` constant this library was built against. -/
  libVersion : String
  /-- Outcome of `createCacheDir`. -/
  cacheDir : Option String
  downloadBinaryOK : Bool
  downloadChecksumOK : Bool
  downloadSigOK : Bool
  /-- What `verifyFileChecksum` reads (signature check outcome, manifest
  lines, artifact digest). -/
  checksum : ChecksumInput
  renameOK : Bool
  /-- Outcome of the post-download `resolveExecutable`. -/
  resolveAfter : Option ResolvedInstall
  /-- Outcome of `ytdlpGetVersion` on the post-download resolution. -/
  versionQueryAfter : Option String
deriving DecidableEq

/-- Steps 9–11 of `Install` (the tail after a successful download and
verification): rename the temporary artifact, re-resolve, stamp the version
when empty, store into the cache cell. -/
def installRenamePhase (env : InstallEnv) (tr : List InstallEvent) :
    Except InstallError ResolvedInstall × List InstallEvent :=
  if env.renameOK then
    match env.resolveAfter with
    | none => (Except.error .resolveAfterDownloadFailed, tr ++ [.rename, .resolve])
    | some r =>
        if r.version = "" then
          match env.versionQueryAfter with
          | none => (Except.error .versionQueryFailed, tr ++ [.rename, .resolve, .versionQuery])
          | some v =>
              (Except.ok { r with version := v },
               tr ++ [.rename, .resolve, .versionQuery, .storeCache])
        else (Except.ok r, tr ++ [.rename, .resolve, .storeCache])
  else (Except.error .renameFailed, tr ++ [.rename])

/-- Steps 7–8 of `Install`: platform lookup, cache directory, the artifact
download into its temporary name, and (unless disabled) the checksum
manifest and signature downloads followed by `verifyFileChecksum` with the
platform asset name as the expected manifest entry. -/
def installDownloadPhase (env : InstallEnv) (tr : List InstallEvent) :
    Except InstallError ResolvedInstall × List InstallEvent :=
  match env.binSrc with
  | none => (Except.error .unsupportedPlatform, tr)
  | some src =>
      match env.cacheDir with
      | none => (Except.error .cacheDirFailed, tr)
      | some dir =>
          if env.downloadBinaryOK then
            let tr1 := tr ++ [.download "binary"]
            if env.disableChecksum then installRenamePhase env tr1
            else
              if env.downloadChecksumOK then
                if env.downloadSigOK then
                  let tr2 := tr1 ++ [.download "SHA2-256SUMS", .download "SHA2-256SUMS.sig"]
                  match verifyFileChecksum env.checksum
                      (dir ++ "/" ++ env.binDest.getD 0 "" ++ ".tmp") src with
                  | Except.error e =>
                      (Except.error (.verifyFailed e), tr2 ++ [.verifyChecksum])
                  | Except.ok _ => installRenamePhase env (tr2 ++ [.verifyChecksum])
                else
                  (Except.error (.downloadFailed "SHA2-256SUMS.sig"),
                   tr1 ++ [.download "SHA2-256SUMS", .download "SHA2-256SUMS.sig"])
              else
                (Except.error (.downloadFailed "SHA2-256SUMS"),
                 tr1 ++ [.download "SHA2-256SUMS"])
          else (Except.error (.downloadFailed "binary"), tr ++ [.download "binary"])

/-- Step 5 of `Install` when the pre-download resolution succeeded (with its
version already filled in): permit the install on a version match or when
mismatches are allowed; otherwise fail when downloading is disabled, else
fall through to the download phase. -/
def installAfterResolve (env : InstallEnv) (r : ResolvedInstall)
    (tr : List InstallEvent) : Except InstallError ResolvedInstall × List InstallEvent :=
  if env.allowVersionMismatch then (Except.ok r, tr ++ [.storeCache])
  else if r.version = env.libVersion then (Except.ok r, tr ++ [.storeCache])
  else if env.disableDownload then
    (Except.error (.versionMismatch env.libVersion r.version), tr)
  else installDownloadPhase env tr

/-- The body of `Install` past the fast path and the lock: resolve, fill in
the version by a subprocess query when empty, and continue per
`installAfterResolve`, or go to the download phase when resolution failed
(unless downloading is disabled). -/
def installSlow (env : InstallEnv) : Except InstallError ResolvedInstall × List InstallEvent :=
  match env.resolveFirst with
  | some r0 =>
      if r0.version = "" then
        match env.versionQuery with
        | none => (Except.error .versionQueryFailed, [.resolve, .versionQuery])
        | some v => installAfterResolve env { r0 with version := v } [.resolve, .versionQuery]
      else installAfterResolve env r0 [.resolve]
  | none =>
      if env.disableDownload then (Except.error .notFoundDownloadDisabled, [.resolve])
      else installDownloadPhase env [.resolve]

/-- Translation of `Install`: the fast path returns the process-wide cache
cell when populated (no lock, no other interaction); otherwise the per-tool
lock is acquired and the slow path runs — the cache cell is not read again
after the lock. -/
def Install (env : InstallEnv) : Except InstallError ResolvedInstall × List InstallEvent :=
  match env.cacheCell with
  | some r => (Except.ok r, [.loadCache])
  | none =>
      let s := installSlow env
      (s.1, .loadCache :: .lockAcquire :: s.2)

/-- Events that can occur past the lock (everything except the cache-cell
read and the lock acquisition themselves). -/
def slowEvent : InstallEvent → Bool
  | .loadCache => false
  | .lockAcquire => false
  | _ => true

theorem memAppendSlow (tr s : List InstallEvent) (hall : s.all slowEvent = true)
    (ev : InstallEvent) (h : ev ∈ tr ++ s) : ev ∈ tr ∨ slowEvent ev = true := by
  rcases List.mem_append.mp h with h | h
  · exact Or.inl h
  · exact Or.inr (List.all_eq_true.mp hall ev h)

theorem installRenamePhase_events (env : InstallEnv) (tr : List InstallEvent)
    (ev : InstallEvent) (hev : ev ∈ (installRenamePhase env tr).2) :
    ev ∈ tr ∨ slowEvent ev = true := by
  unfold installRenamePhase at hev
  split at hev
  · split at hev
    · rcases List.mem_append.mp hev with h | h
      · exact Or.inl h
      · exact Or.inr (List.all_eq_true.mp (by decide) ev h)
    · split at hev
      · split at hev
        · rcases List.mem_append.mp hev with h | h
          · exact Or.inl h
          · exact Or.inr (List.all_eq_true.mp (by decide) ev h)
        · rcases List.mem_append.mp hev with h | h
          · exact Or.inl h
          · exact Or.inr (List.all_eq_true.mp (by decide) ev h)
      · rcases List.mem_append.mp hev with h | h
        · exact Or.inl h
        · exact Or.inr (List.all_eq_true.mp (by decide) ev h)
  · rcases List.mem_append.mp hev with h | h
    · exact Or.inl h
    · exact Or.inr (List.all_eq_true.mp (by decide) ev h)

theorem installDownloadPhase_events (env : InstallEnv) (tr : List InstallEvent)
    (ev : InstallEvent) (hev : ev ∈ (installDownloadPhase env tr).2) :
    ev ∈ tr ∨ slowEvent ev = true := by
  unfold installDownloadPhase at hev
  split at hev
  · exact Or.inl hev
  · split at hev
    · exact Or.inl hev
    · split at hev
      · split at hev
        · rcases installRenamePhase_events env _ ev hev with h | h
          · rcases List.mem_append.mp h with h | h
            · exact Or.inl h
            · exact Or.inr (List.all_eq_true.mp (by decide) ev h)
          · exact Or.inr h
        · split at hev
          · split at hev
            · split at hev
              · rcases List.mem_append.mp hev with h | h
                · rcases List.mem_append.mp h with h | h
                  · exact memAppendSlow tr _ (by decide) ev h
                  · exact Or.inr (List.all_eq_true.mp (by decide) ev h)
                · exact Or.inr (List.all_eq_true.mp (by decide) ev h)
              · rcases installRenamePhase_events env _ ev hev with h | h
                · rcases List.mem_append.mp h with h | h
                  · rcases List.mem_append.mp h with h | h
                    · exact memAppendSlow tr _ (by decide) ev h
                    · exact Or.inr (List.all_eq_true.mp (by decide) ev h)
                  · exact Or.inr (List.all_eq_true.mp (by decide) ev h)
                · exact Or.inr h
            · rcases List.mem_append.mp hev with h | h
              · rcases List.mem_append.mp h with h | h
                · exact Or.inl h
                · exact Or.inr (List.all_eq_true.mp (by decide) ev h)
              · exact Or.inr (List.all_eq_true.mp (by decide) ev h)
          · rcases List.mem_append.mp hev with h | h
            · rcases List.mem_append.mp h with h | h
              · exact Or.inl h
              · exact Or.inr (List.all_eq_true.mp (by decide) ev h)
            · exact Or.inr (List.all_eq_true.mp (by decide) ev h)
      · rcases List.mem_append.mp hev with h | h
        · exact Or.inl h
        · exact Or.inr (List.all_eq_true.mp (by decide) ev h)

theorem installAfterResolve_events (env : InstallEnv) (r : ResolvedInstall)
    (tr : List InstallEvent) (ev : InstallEvent)
    (hev : ev ∈ (installAfterResolve env r tr).2) : ev ∈ tr ∨ slowEvent ev = true := by
  unfold installAfterResolve at hev
  split at hev
  · rcases List.mem_append.mp hev with h | h
    · exact Or.inl h
    · exact Or.inr (List.all_eq_true.mp (by decide) ev h)
  · split at hev
    · rcases List.mem_append.mp hev with h | h
      · exact Or.inl h
      · exact Or.inr (List.all_eq_true.mp (by decide) ev h)
    · split at hev
      · exact Or.inl hev
      · exact installDownloadPhase_events env tr ev hev

theorem installSlow_events (env : InstallEnv) (ev : InstallEvent)
    (hev : ev ∈ (installSlow env).2) : slowEvent ev = true := by
  unfold installSlow at hev
  split at hev
  · rename_i r0 _
    split at hev
    · split at hev
      · exact List.all_eq_true.mp (by decide) ev hev
      · rcases installAfterResolve_events env _ _ ev hev with h | h
        · exact List.all_eq_true.mp (by decide) ev h
        · exact h
    · rcases installAfterResolve_events env _ _ ev hev with h | h
      · exact List.all_eq_true.mp (by decide) ev h
      · exact h
  · split at hev
    · exact List.all_eq_true.mp (by decide) ev hev
    · rcases installDownloadPhase_events env _ ev hev with h | h
      · exact List.all_eq_true.mp (by decide) ev h
      · exact h

/-- C2: whenever `verifyFileChecksum` fails — signature not verifying
against the embedded key, content hash differing from the matching manifest
entry, or no manifest entry matching the expected artifact name — the
install call reaching the checksum-enabled download path fails with exactly
that verification error, and the trace contains no rename of the temporary
artifact to its final name. -/
theorem Install_verify_failure_no_rename (env : InstallEnv) (e : VerifyError)
    (src dir : String)
    (hcell : env.cacheCell = none)
    (hres : env.resolveFirst = none)
    (hdd : env.disableDownload = false)
    (hchk : env.disableChecksum = false)
    (hsrc : env.binSrc = some src)
    (hdir : env.cacheDir = some dir)
    (hb : env.downloadBinaryOK = true)
    (hc : env.downloadChecksumOK = true)
    (hs : env.downloadSigOK = true)
    (hver : verifyFileChecksum env.checksum
        (dir ++ "/" ++ env.binDest.getD 0 "" ++ ".tmp") src = Except.error e) :
    (Install env).1 = Except.error (.verifyFailed e) ∧
    InstallEvent.rename ∉ (Install env).2 := by
  unfold Install
  rw [hcell]
  simp only
  unfold installSlow
  rw [hres]
  simp only [hdd, Bool.false_eq_true, if_false]
  unfold installDownloadPhase
  rw [hsrc, hdir]
  simp only [hb, if_true, hchk, Bool.false_eq_true, if_false, hc, hs]
  rw [hver]
  refine ⟨rfl, ?_⟩
  intro hmem
  simp at hmem

/-- The environment of the C2 witness: empty cache cell, no resolvable
executable, all three downloads succeeding, and a correctly-signed manifest
whose entry for the expected artifact does not match the artifact's digest
(a tampered artifact). -/
def tamperedEnv : InstallEnv :=
  { disableDownload := false, disableChecksum := false, disableSystem := false
    allowVersionMismatch := false, cacheCell := none, binSrc := some "yt-dlp_linux"
    binDest := ["yt-dlp-2025.01.01", "yt-dlp"], resolveFirst := none, versionQuery := none
    libVersion := "2025.01.01", cacheDir := some "/cache/go-ytdlp"
    downloadBinaryOK := true, downloadChecksumOK := true, downloadSigOK := true
    checksum := ⟨true, ["deadbeef yt-dlp_linux"], "cafef00d"⟩, renameOK := true
    resolveAfter := some ⟨"/cache/go-ytdlp/yt-dlp-2025.01.01", "2025.01.01", true, true⟩
    versionQueryAfter := none }

/-- The C2 witness environment with a manifest that does not verify against
the embedded key. -/
def badSignatureEnv : InstallEnv :=
  { tamperedEnv with checksum := ⟨false, ["deadbeef yt-dlp_linux"], "deadbeef"⟩ }

/-- The C2 witness environment with a correctly-signed manifest that has no
entry for the expected artifact name. -/
def missingEntryEnv : InstallEnv :=
  { tamperedEnv with checksum := ⟨true, ["deadbeef other-asset"], "deadbeef"⟩ }

/-- C2 witness: the theorem applied at the three concrete failure
environments — hash mismatch, invalid signature, and missing manifest entry
— each failing with the corresponding error kind and performing no rename. -/
theorem Install_verify_failure_no_rename_witness :
    ((Install tamperedEnv).1 =
        Except.error (.verifyFailed (.checksumMismatch "deadbeef" "cafef00d")) ∧
      InstallEvent.rename ∉ (Install tamperedEnv).2) ∧
    ((Install badSignatureEnv).1 = Except.error (.verifyFailed .signature) ∧
      InstallEvent.rename ∉ (Install badSignatureEnv).2) ∧
    ((Install missingEntryEnv).1 =
        Except.error (.verifyFailed (.notFound "yt-dlp-2025.01.01.tmp")) ∧
      InstallEvent.rename ∉ (Install missingEntryEnv).2) :=
  ⟨Install_verify_failure_no_rename tamperedEnv _ "yt-dlp_linux" "/cache/go-ytdlp"
      rfl rfl rfl rfl rfl rfl rfl rfl rfl rfl,
   Install_verify_failure_no_rename badSignatureEnv _ "yt-dlp_linux" "/cache/go-ytdlp"
      rfl rfl rfl rfl rfl rfl rfl rfl rfl rfl,
   Install_verify_failure_no_rename missingEntryEnv _ "yt-dlp_linux" "/cache/go-ytdlp"
      rfl rfl rfl rfl rfl rfl rfl rfl rfl rfl⟩

/-- C3 (counterexample): a run whose fast-path cache read comes back empty
reads the cache cell exactly once in total — the trace past the lock
contains no second cache read that could observe a concurrently stored
value, so the claimed check-lock-recheck shape is absent: the run proceeds
to resolve and download regardless of the cell's later contents. -/
theorem Install_no_recheck_counterexample :
    (Install { tamperedEnv with disableChecksum := true }).2 =
      [.loadCache, .lockAcquire, .resolve, .download "binary", .rename, .resolve,
        .storeCache] ∧
    (Install { tamperedEnv with disableChecksum := true }).2.count
        InstallEvent.loadCache = 1 ∧
    InstallEvent.lockAcquire ∈ (Install { tamperedEnv with disableChecksum := true }).2 ∧
    InstallEvent.download "binary" ∈
      (Install { tamperedEnv with disableChecksum := true }).2 := by
  refine ⟨by decide, by decide, by decide, by decide⟩

/-- C3 (amended): Install is idempotent with respect to the per-tool cache
cell, which is consulted exactly once per call, on the fast path before the
lock — there is no re-check after the lock. When the cell is populated the
call returns the identical cached value with no lock, no resolution and no
download; the cell read is always the first interaction, and it is never
repeated. -/
theorem Install_cache_idempotent (env : InstallEnv) :
    (∀ r, env.cacheCell = some r →
      Install env = (Except.ok r, [InstallEvent.loadCache])) ∧
    (Install env).2.count InstallEvent.loadCache = 1 ∧
    (Install env).2.head? = some InstallEvent.loadCache ∧
    (∀ r, env.cacheCell = some r → ∀ s, InstallEvent.download s ∉ (Install env).2) := by
  refine ⟨?_, ?_, ?_, ?_⟩
  · intro r hr
    simp only [Install, hr]
  · cases hcell : env.cacheCell with
    | some r => simp only [Install, hcell]; rfl
    | none =>
        have hnotin : InstallEvent.loadCache ∉ (installSlow env).2 := by
          intro h
          have hslow := installSlow_events env _ h
          simp [slowEvent] at hslow
        simp only [Install, hcell]
        rw [List.count_cons, List.count_cons, List.count_eq_zero.mpr hnotin]
        rfl
  · cases hcell : env.cacheCell with
    | some r => simp only [Install, hcell]; rfl
    | none => simp only [Install, hcell]; rfl
  · intro r hr s hmem
    simp only [Install, hr, List.mem_singleton] at hmem
    cases hmem

/-- C3 witness: a populated cache cell makes `Install` return exactly the
cached value with a single cache read as its whole trace. -/
theorem Install_cache_idempotent_witness :
    Install { tamperedEnv with
        cacheCell := some ⟨"/cache/go-ytdlp/yt-dlp-2025.01.01", "2025.01.01", true, false⟩ } =
      (Except.ok ⟨"/cache/go-ytdlp/yt-dlp-2025.01.01", "2025.01.01", true, false⟩,
        [InstallEvent.loadCache]) :=
  (Install_cache_idempotent _).1 _ rfl

/-! ## C9: `Command.BuildCommand` reads a snapshot (command file)

Translated from the current command file: the `Command` struct and
`BuildCommand`. External interactions (the bun and yt-dlp resolve cache
cells, `resolveExecutable`, `os.Environ`, `GetCacheDir`) are driven by an
oracle world. The generated flag catalog (`FlagConfig.ToFlags` and the
hundreds of typed setters) is outside this core per the spec; the tokens it
would produce are carried opaquely in `otherFlagTokens`, while the typed
fields that `BuildCommand` itself reads (`General.JsRuntimes`,
`General.NoJsRuntimes`) are modelled explicitly. Go's randomized map
iteration order is fixed to list order, which does not affect the claim
(about the `Command`'s own state). -/

/-- The `General` flag group fields read by `BuildCommand`. -/
structure GeneralFlags where
  jsRuntimes : List String
  noJsRuntimes : Option Bool
deriving DecidableEq

/-- The `VerbositySimulation` flag group fields read by `hasJSONFlag`. -/
structure VerbositySimulationFlags where
  print : List String
  printJSON : Option Bool
  dumpJSON : Option Bool
deriving DecidableEq

/-- `FlagConfig`: the two typed groups the orchestrator reads, plus the raw
tokens of all remaining (generated) flags. -/
structure FlagConfig where
  general : GeneralFlags
  verbositySimulation : VerbositySimulationFlags
  otherFlagTokens : List String
deriving DecidableEq

/-- `FlagConfig.ToFlags` flattened to raw tokens (the generated encoding of
the typed fields is out of scope; only the opaque tokens are carried). -/
def flagConfigToFlags (fc : FlagConfig) : List String :=
  fc.otherFlagTokens

/-- The `Command` builder state (the mutex is not modelled; the model is
sequential). -/
structure Command where
  executable : String
  directory : String
  env : List (String × String)
  flagConfig : FlagConfig
  separateProcessGroup : Bool
  cancelMaxWait : Nat
  disableEnvVarInherit : Bool
  progressAttached : Bool
deriving DecidableEq

/-- The world `BuildCommand` interacts with. -/
structure BuildWorld where
  /-- `bunResolveCache.Load()`. -/
  bunResolveCache : Option ResolvedInstall
  /-- `ytdlpResolveCache.Load()`. -/
  ytdlpResolveCache : Option ResolvedInstall
  /-- Outcome of the fallback `resolveExecutable` call. -/
  resolveResult : Option ResolvedInstall
  /-- `os.Environ()` as a map. -/
  osEnviron : List (String × String)
  /-- Outcome of `GetCacheDir`. -/
  cacheDir : Option String
deriving DecidableEq

/-- The fields of the built `exec.Cmd` the model tracks. -/
structure ExecCmd where
  name : String
  args : List String
  env : List (String × String)
  dir : String
  waitDelay : Nat
  errSet : Bool
deriving DecidableEq

/-- Model of Go `filepath.SplitList` for the list separator `:`. -/
def goSplitList (s : String) : List String :=
  if s = "" then [] else s.splitOn ":"

/-- Translation of `Command.BuildCommand`: auto-enable the bun JS runtime
when the bun resolve cache is populated and the user set no runtime options
(this writes through the shared `flagConfig` pointer, mutating the
`Command`); flatten flags and positional arguments; resolve the executable
(explicit path, else the yt-dlp resolve cache, else a fresh resolution, a
failure being carried as a deferred error on the built command); compute the
environment (inherit unless disabled, overlay overrides with the `PATH`
merge, prepend the cache directory to `PATH`); and return the built command
together with the `Command`'s state after the call. -/
def BuildCommand (c : Command) (w : BuildWorld) (args : List String) :
    ExecCmd × Command :=
  let c1 :=
    if w.bunResolveCache.isSome && c.flagConfig.general.jsRuntimes.isEmpty &&
        c.flagConfig.general.noJsRuntimes.isNone then
      { c with flagConfig :=
          { c.flagConfig with general :=
              { c.flagConfig.general with jsRuntimes := ["bun"] } } }
    else c
  let cmdArgs := flagConfigToFlags c1.flagConfig ++ args
  let resolved : Option String :=
    if c1.executable = "" then
      match w.ytdlpResolveCache with
      | some r => some r.executable
      | none =>
          match w.resolveResult with
          | some r => some r.executable
          | none => none
    else some c1.executable
  let name := resolved.getD ""
  let env0 : List (String × String) :=
    if c1.disableEnvVarInherit then [] else w.osEnviron
  let env1 := c1.env.foldl
    (fun acc kv =>
      if kv.1 = "PATH" then
        let parentPATH := (goMapGet acc "PATH").getD ""
        if parentPATH = "" then goMapSet acc "PATH" kv.2
        else
          let cpaths := (goSplitList parentPATH).foldl
            (fun cp p => if cp.contains p then cp else p :: cp)
            (goSplitList kv.2)
          goMapSet acc "PATH" (String.intercalate ":" cpaths)
      else goMapSet acc kv.1 kv.2)
    env0
  let env2 :=
    match w.cacheDir with
    | some dir =>
        goMapSet env1 "PATH"
          (String.intercalate ":" (dir :: goSplitList ((goMapGet env1 "PATH").getD "")))
    | none => env1
  let errSet := w.cacheDir.isNone || name = ""
  ({ name := name, args := cmdArgs, env := env2, dir := c1.directory,
     waitDelay := c1.cancelMaxWait, errSet := errSet }, c1)

/-- The flag config of the counterexample command: no JS runtime settings. -/
def demoFlagConfig : FlagConfig := ⟨⟨[], none⟩, ⟨[], none, none⟩, []⟩

/-- The counterexample command: a fresh builder with default settings. -/
def bunDemoCommand : Command := ⟨"", "", [], demoFlagConfig, false, 1, false, false⟩

/-- The counterexample world: the bun resolve cache is populated. -/
def bunDemoWorld : BuildWorld :=
  ⟨some ⟨"/cache/go-ytdlp/bun", "", true, false⟩,
   some ⟨"/cache/go-ytdlp/yt-dlp", "2025.01.01", true, false⟩, none, [],
   some "/cache/go-ytdlp"⟩

/-- C9 (counterexample): with the bun resolve cache populated and no JS
runtime settings on the command, `BuildCommand` mutates the `Command`: its
flag configuration's JS runtime list changes from empty to `["bun"]`, so the
configuration is not unchanged after the call. -/
theorem BuildCommand_mutates_counterexample :
    (BuildCommand bunDemoCommand bunDemoWorld []).2.flagConfig.general.jsRuntimes =
      ["bun"] ∧
    bunDemoCommand.flagConfig.general.jsRuntimes = [] ∧
    (BuildCommand bunDemoCommand bunDemoWorld []).2 ≠ bunDemoCommand := by
  refine ⟨rfl, rfl, ?_⟩
  intro h
  have hjs := congrArg (fun c => c.flagConfig.general.jsRuntimes) h
  simp only at hjs
  cases hjs

/-- C9 (amended): `BuildCommand` reads a snapshot of the `Command` and
leaves every field unchanged — executable, working directory, environment
overrides, tunables, and all of the flag configuration — with the single
exception of the bun auto-enable: when the bun resolve cache is populated
and the command has no JS runtime settings (empty `JsRuntimes`, nil
`NoJsRuntimes`), the flag configuration's `JsRuntimes` is set to `["bun"]`.
`Run` touches the `Command` only through `BuildCommand` (validation and
`runWithResult` are read-only), so the same holds for `Run`. -/
theorem BuildCommand_frame (c : Command) (w : BuildWorld) (args : List String) :
    (BuildCommand c w args).2.executable = c.executable ∧
    (BuildCommand c w args).2.directory = c.directory ∧
    (BuildCommand c w args).2.env = c.env ∧
    (BuildCommand c w args).2.separateProcessGroup = c.separateProcessGroup ∧
    (BuildCommand c w args).2.cancelMaxWait = c.cancelMaxWait ∧
    (BuildCommand c w args).2.disableEnvVarInherit = c.disableEnvVarInherit ∧
    (BuildCommand c w args).2.progressAttached = c.progressAttached ∧
    (BuildCommand c w args).2.flagConfig.verbositySimulation =
      c.flagConfig.verbositySimulation ∧
    (BuildCommand c w args).2.flagConfig.otherFlagTokens =
      c.flagConfig.otherFlagTokens ∧
    (BuildCommand c w args).2.flagConfig.general.noJsRuntimes =
      c.flagConfig.general.noJsRuntimes ∧
    ((BuildCommand c w args).2.flagConfig.general.jsRuntimes =
        c.flagConfig.general.jsRuntimes ∨
      (c.flagConfig.general.jsRuntimes = [] ∧
       c.flagConfig.general.noJsRuntimes = none ∧
       w.bunResolveCache ≠ none ∧
       (BuildCommand c w args).2.flagConfig.general.jsRuntimes = ["bun"])) := by
  have h2 : (BuildCommand c w args).2 =
      (if w.bunResolveCache.isSome && c.flagConfig.general.jsRuntimes.isEmpty &&
          c.flagConfig.general.noJsRuntimes.isNone then
        { c with flagConfig :=
            { c.flagConfig with general :=
                { c.flagConfig.general with jsRuntimes := ["bun"] } } }
      else c) := rfl
  rw [h2]
  by_cases hcond : (w.bunResolveCache.isSome &&
      c.flagConfig.general.jsRuntimes.isEmpty &&
      c.flagConfig.general.noJsRuntimes.isNone) = true
  · rw [if_pos hcond]
    simp only [Bool.and_eq_true, Option.isSome_iff_ne_none, List.isEmpty_iff,
      Option.isNone_iff_eq_none] at hcond
    refine ⟨rfl, rfl, rfl, rfl, rfl, rfl, rfl, rfl, rfl, rfl, Or.inr ?_⟩
    exact ⟨hcond.1.2, hcond.2, hcond.1.1, rfl⟩
  · rw [if_neg hcond]
    exact ⟨rfl, rfl, rfl, rfl, rfl, rfl, rfl, rfl, rfl, rfl, Or.inl rfl⟩

/-! ## C7 and C8: the timestamped stream writer (results file)

Translated from the results file: `ResultLog`, `timestampWriter.Write`,
`timestampWriter.flush`, `timestampWriter.mergeResults`. The JSON-detection
branch of `flush` only fills the optional JSON payload, which none of the
claims inspect, so the payload is omitted; the progress-routing branch is
kept. `Write` is modelled with a fuel argument strictly larger than the
chunk length (each recursive step consumes at least the line terminator, so
the fuel never runs out); this keeps the model kernel-computable. -/

/-- `ResultLog` (timestamp tick, trimmed line, source stream). -/
structure ResultLog where
  timestamp : Nat
  line : String
  pipe : String
deriving DecidableEq

/-- `timestampWriter` state. -/
structure TimestampWriter where
  pipe : String
  /-- Whether a progress handler is attached (`w.progress != nil`). -/
  progressAttached : Bool
  buf : List Char
  /-- `lastWriteStart`; `0` is the zero time. -/
  lastWriteStart : Nat
  results : List ResultLog
deriving DecidableEq

/-- The progress-protocol line marker (`"dl:"`, the progress line tag that
`flush` routes to the decoder). -/
def progressLineTag : String := "dl:"

/-- Translation of `timestampWriter.flush`: nothing to do on an empty
buffer; otherwise trim the completed line, route it to the progress decoder
instead of recording it when marked and a decoder is attached, otherwise
record it with the stamped capture time; reset the stamp and the buffer. -/
def twFlush (w : TimestampWriter) : TimestampWriter :=
  if w.buf = [] then w
  else
    let line := goTrimRightList w.buf
    if w.progressAttached && listIsPre progressLineTag.toList line then
      { w with buf := [], lastWriteStart := 0 }
    else
      { w with
        buf := []
        lastWriteStart := 0
        results := w.results ++ [⟨w.lastWriteStart, ⟨line⟩, w.pipe⟩] }

/-- Translation of `timestampWriter.Write` (fuelled): stamp `lastWriteStart`
with the current time when it is zero; while the incoming bytes contain a
line terminator, move everything up to and including it into the buffer,
flush, and recurse on the remainder (which re-stamps, the stamp having just
been reset — including on an empty remainder); buffer a terminator-free
tail. -/
def twWriteFuel (now : Nat) : Nat → TimestampWriter → List Char → TimestampWriter
  | 0, w, _ => w
  | fuel + 1, w, p =>
      let w1 := if w.lastWriteStart = 0 then { w with lastWriteStart := now } else w
      match goSplitOnce ['\n'] p with
      | some (pre, post) =>
          twWriteFuel now fuel (twFlush { w1 with buf := w1.buf ++ (pre ++ ['\n']) }) post
      | none => { w1 with buf := w1.buf ++ p }

/-- `timestampWriter.Write` at one instant `now` (all bytes of one `Write`
call arrive at the same clock reading). -/
def twWrite (now : Nat) (w : TimestampWriter) (p : List Char) : TimestampWriter :=
  twWriteFuel now (p.length + 1) w p

/-- A sequence of `Write` calls, each chunk tagged with its arrival time. -/
def twWriteAll (w : TimestampWriter) (chunks : List (Nat × String)) : TimestampWriter :=
  chunks.foldl (fun acc c => twWrite c.1 acc c.2.toList) w

/-- A fresh writer for one stream (no progress decoder attached). -/
def freshWriter (pipe : String) : TimestampWriter := ⟨pipe, false, [], 0, []⟩

/-! ### Go `sort.Slice` (pdqsort)

`mergeResults` sorts with `sort.Slice`, whose unstable pdqsort algorithm
decides the claims about merge ordering, so the algorithm itself (Go
runtime, `sort` package, as of the Go 1.19+ pdqsort rewrite used by the
module's Go 1.24 toolchain) is modelled here over index-addressed lists.
Loops carry explicit fuel chosen strictly larger than the iteration count.
The comparison is the one `mergeResults` passes: `Timestamp.Before`. -/

/-- Indexed read with a placeholder (all accesses are in bounds). -/
def lget (l : List ResultLog) (i : Nat) : ResultLog := l.getD i ⟨0, "", ""⟩

/-- Indexed write. -/
def lset (l : List ResultLog) (i : Nat) (v : ResultLog) : List ResultLog := l.set i v

/-- `data.Swap(i, j)`. -/
def lswap (l : List ResultLog) (i j : Nat) : List ResultLog :=
  let a := lget l i
  let b := lget l j
  lset (lset l i b) j a

/-- `data.Less(i, j)`: the `mergeResults` comparison, strict order on the
capture timestamps. -/
def lless (l : List ResultLog) (i j : Nat) : Bool :=
  (lget l i).timestamp < (lget l j).timestamp

/-- `insertionSort` inner loop (sink position `j` toward `a`). -/
def insSortInner (a : Nat) : Nat → List ResultLog → List ResultLog
  | 0, l => l
  | j + 1, l =>
      if a < j + 1 && lless l (j + 1) j then insSortInner a j (lswap l (j + 1) j)
      else l

/-- `insertionSort` outer loop. -/
def insSortOuter (a b : Nat) : Nat → Nat → List ResultLog → List ResultLog
  | 0, _, l => l
  | fuel + 1, i, l =>
      if i < b then insSortOuter a b fuel (i + 1) (insSortInner a i l) else l

/-- Go `insertionSort_func` on the range `[a, b)`. -/
def insertionSortGo (l : List ResultLog) (a b : Nat) : List ResultLog :=
  insSortOuter a b (b - a + 1) (a + 1) l

/-- Go `siftDown_func`. -/
def siftDownGo : Nat → Nat → Nat → Nat → List ResultLog → List ResultLog
  | 0, _, _, _, l => l
  | fuel + 1, root, hi, first, l =>
      let child := 2 * root + 1
      if child ≥ hi then l
      else
        let child :=
          if child + 1 < hi then
            if lless l (first + child) (first + child + 1) then child + 1 else child
          else child
        if lless l (first + root) (first + child) then
          siftDownGo fuel child hi first (lswap l (first + root) (first + child))
        else l

/-- The heap-construction loop of `heapSort_func` (roots from `(hi-1)/2`
down to `0`). -/
def heapBuild (hi first : Nat) : Nat → List ResultLog → List ResultLog
  | 0, l => l
  | i + 1, l => heapBuild hi first i (siftDownGo (hi + 1) i hi first l)

/-- The extraction loop of `heapSort_func` (`i` from `hi-1` down to `0`). -/
def heapExtract (first : Nat) : Nat → List ResultLog → List ResultLog
  | 0, l => l
  | i + 1, l => heapExtract first i (siftDownGo (i + 1) 0 i first (lswap l first (first + i)))

/-- Go `heapSort_func` on the range `[a, b)`. -/
def heapSortGo (l : List ResultLog) (a b : Nat) : List ResultLog :=
  let hi := b - a
  heapExtract a hi (heapBuild hi a ((hi - 1) / 2 + 1) l)

/-- Go `reverseRange_func` loop. -/
def revRangeLoop : Nat → Nat → Nat → List ResultLog → List ResultLog
  | 0, _, _, l => l
  | fuel + 1, i, j, l => if i < j then revRangeLoop fuel (i + 1) (j - 1) (lswap l i j) else l

/-- Go `reverseRange_func` on the range `[a, b)`. -/
def reverseRangeGo (l : List ResultLog) (a b : Nat) : List ResultLog :=
  revRangeLoop (b - a) a (b - 1) l

/-- Go `order2_func`: order two indices by the data, counting swaps. -/
def order2Go (l : List ResultLog) (a b swaps : Nat) : Nat × Nat × Nat :=
  if lless l b a then (b, a, swaps + 1) else (a, b, swaps)

/-- Go `median_func`: index of the median of three, counting swaps. -/
def medianGo (l : List ResultLog) (a b c swaps : Nat) : Nat × Nat :=
  match order2Go l a b swaps with
  | (a1, b1, s1) =>
      match order2Go l b1 c s1 with
      | (b2, _, s2) =>
          match order2Go l a1 b2 s2 with
          | (_, b3, s3) => (b3, s3)

/-- Go `medianAdjacent_func`. -/
def medianAdjacentGo (l : List ResultLog) (i swaps : Nat) : Nat × Nat :=
  medianGo l (i - 1) i (i + 1) swaps

/-- Hint encoding: `0` unknown, `1` increasing, `2` decreasing. -/
def hintFromSwaps (s : Nat) : Nat :=
  if s = 0 then 1 else if s = 12 then 2 else 0

/-- Go `choosePivot_func`. -/
def choosePivotGo (l : List ResultLog) (a b : Nat) : Nat × Nat :=
  let len := b - a
  let i := a + len / 4 * 1
  let j := a + len / 4 * 2
  let k := a + len / 4 * 3
  if len ≥ 8 then
    if len ≥ 50 then
      match medianAdjacentGo l i 0 with
      | (i1, s1) =>
          match medianAdjacentGo l j s1 with
          | (j1, s2) =>
              match medianAdjacentGo l k s2 with
              | (k1, s3) =>
                  match medianGo l i1 j1 k1 s3 with
                  | (j2, s4) => (j2, hintFromSwaps s4)
    else
      match medianGo l i j k 0 with
      | (j1, s) => (j1, hintFromSwaps s)
  else (j, 1)

/-- The advance of `i` in `partialInsertionSort` (`for i < b && !Less(i, i-1)`). -/
def partInsScan (b : Nat) : Nat → Nat → List ResultLog → Nat
  | 0, i, _ => i
  | fuel + 1, i, l =>
      if i < b then
        if lless l i (i - 1) then i else partInsScan b fuel (i + 1) l
      else i

/-- The left-shift loop of `partialInsertionSort` (`for j := i-1; j >= 1; j--`). -/
def shiftLeftLoop : Nat → List ResultLog → List ResultLog
  | 0, l => l
  | j + 1, l => if lless l (j + 1) j then shiftLeftLoop j (lswap l (j + 1) j) else l

/-- The right-shift loop of `partialInsertionSort` (`for j := i+1; j < b; j++`). -/
def shiftRightLoop (b : Nat) : Nat → Nat → List ResultLog → List ResultLog
  | 0, _, l => l
  | fuel + 1, j, l =>
      if j < b then
        if lless l j (j - 1) then shiftRightLoop b fuel (j + 1) (lswap l j (j - 1)) else l
      else l

/-- The step loop of Go `partialInsertionSort_func` (`maxSteps = 5`,
`shortestShifting = 50`): find the next out-of-order adjacent pair; sorted
when the scan reaches `b`; bail out without shifting on short ranges;
otherwise swap the pair and shift both ways. -/
def partInsSortSteps (a b : Nat) : Nat → Nat → List ResultLog → List ResultLog × Bool
  | 0, _, l => (l, false)
  | steps + 1, i, l =>
      let i2 := partInsScan b (b + 1) i l
      if i2 = b then (l, true)
      else if b - a < 50 then (l, false)
      else
        let l1 := lswap l i2 (i2 - 1)
        let l2 := if i2 - a ≥ 2 then shiftLeftLoop (i2 - 1) l1 else l1
        let l3 := if b - i2 ≥ 2 then shiftRightLoop b (b + 1) (i2 + 1) l2 else l2
        partInsSortSteps a b steps i2 l3

/-- Go `partialInsertionSort_func`. -/
def partInsSortGo (l : List ResultLog) (a b : Nat) : List ResultLog × Bool :=
  partInsSortSteps a b 5 (a + 1) l

/-- The advance of `i` in `partition_func` (`for i <= j && Less(i, a)`). -/
def partAdvanceI (aP : Nat) : Nat → Nat → Nat → List ResultLog → Nat
  | 0, i, _, _ => i
  | fuel + 1, i, j, l =>
      if i ≤ j then
        if lless l i aP then partAdvanceI aP fuel (i + 1) j l else i
      else i

/-- The retreat of `j` in `partition_func` (`for i <= j && !Less(j, a)`). -/
def partRetreatJ (aP : Nat) : Nat → Nat → Nat → List ResultLog → Nat
  | 0, _, j, _ => j
  | fuel + 1, i, j, l =>
      if i ≤ j then
        if lless l j aP then j else partRetreatJ aP fuel i (j - 1) l
      else j

/-- The main exchange loop of `partition_func`. -/
def partitionMainLoop (aP : Nat) : Nat → Nat → Nat → List ResultLog → Nat × List ResultLog
  | 0, _, j, l => (j, l)
  | fuel + 1, i, j, l =>
      let i2 := partAdvanceI aP (j + 2) i j l
      let j2 := partRetreatJ aP (j + 2) i2 j l
      if i2 > j2 then (j2, l)
      else partitionMainLoop aP fuel (i2 + 1) (j2 - 1) (lswap l i2 j2)

/-- Go `partition_func` on `[a, b)` with the chosen pivot index: move the
pivot to `a`, exchange out-of-place pairs, put the pivot back at the final
`j`; the Boolean reports an already-partitioned range. -/
def partitionGo (l : List ResultLog) (a b pivot : Nat) : Nat × Bool × List ResultLog :=
  let l0 := lswap l a pivot
  let i1 := partAdvanceI a (b + 2) (a + 1) (b - 1) l0
  let j1 := partRetreatJ a (b + 2) i1 (b - 1) l0
  if i1 > j1 then (j1, true, lswap l0 j1 a)
  else
    match partitionMainLoop a (b + 2) (i1 + 1) (j1 - 1) (lswap l0 i1 j1) with
    | (jf, l2) => (jf, false, lswap l2 jf a)

/-- The advance of `i` in `partitionEqual_func` (`for i <= j && !Less(a, i)`). -/
def partEqAdvanceI (aP : Nat) : Nat → Nat → Nat → List ResultLog → Nat
  | 0, i, _, _ => i
  | fuel + 1, i, j, l =>
      if i ≤ j then
        if lless l aP i then i else partEqAdvanceI aP fuel (i + 1) j l
      else i

/-- The retreat of `j` in `partitionEqual_func` (`for i <= j && Less(a, j)`). -/
def partEqRetreatJ (aP : Nat) : Nat → Nat → Nat → List ResultLog → Nat
  | 0, _, j, _ => j
  | fuel + 1, i, j, l =>
      if i ≤ j then
        if lless l aP j then partEqRetreatJ aP fuel i (j - 1) l else j
      else j

/-- The exchange loop of `partitionEqual_func`. -/
def partEqLoop (aP : Nat) : Nat → Nat → Nat → List ResultLog → Nat × List ResultLog
  | 0, i, _, l => (i, l)
  | fuel + 1, i, j, l =>
      let i2 := partEqAdvanceI aP (j + 2) i j l
      let j2 := partEqRetreatJ aP (j + 2) i2 j l
      if i2 > j2 then (i2, l)
      else partEqLoop aP fuel (i2 + 1) (j2 - 1) (lswap l i2 j2)

/-- Go `partitionEqual_func`: move elements equal to the pivot to the front,
returning the first index past them. -/
def partitionEqualGo (l : List ResultLog) (a b pivot : Nat) : Nat × List ResultLog :=
  partEqLoop a (b + 2) (a + 1) (b - 1) (lswap l a pivot)

/-- Go's deterministic xorshift step on 64-bit words
(`r ^= r<<13; r ^= r>>7; r ^= r<<17`). -/
def xorshiftNext (r : Nat) : Nat :=
  let m := 2 ^ 64
  let r1 := (Nat.xor r ((r * 2 ^ 13) % m)) % m
  let r2 := Nat.xor r1 (r1 / 2 ^ 7)
  (Nat.xor r2 ((r2 * 2 ^ 17) % m)) % m

/-- Go `bits.Len`. -/
def bitsLen (n : Nat) : Nat := if n = 0 then 0 else Nat.log2 n + 1

/-- Go `breakPatterns_func`: scatter three elements near the middle to
positions drawn from a xorshift stream seeded with the range length. -/
def breakPatternsGo (l : List ResultLog) (a b : Nat) : List ResultLog :=
  let len := b - a
  if len ≥ 8 then
    let modulus := 2 ^ bitsLen len
    let idx := a + len / 4 * 2 - 1
    let r1 := xorshiftNext len
    let o1 := if r1 % modulus ≥ len then r1 % modulus - len else r1 % modulus
    let l1 := lswap l (idx - 1 + 0) (o1 + a)
    let r2 := xorshiftNext r1
    let o2 := if r2 % modulus ≥ len then r2 % modulus - len else r2 % modulus
    let l2 := lswap l1 (idx - 1 + 1) (o2 + a)
    let r3 := xorshiftNext r2
    let o3 := if r3 % modulus ≥ len then r3 % modulus - len else r3 % modulus
    lswap l2 (idx - 1 + 2) (o3 + a)
  else l

/-- Go `pdqsort_func` (fuelled; the range shrinks at every iteration, so a
fuel larger than the range length is never exhausted). The `wasBalanced` /
`wasPartitioned` loop state is threaded through the tail calls; recursive
calls on subranges restart it at `true`/`true` exactly as the Go function
entry does. -/
def pdqsortGo : Nat → List ResultLog → Nat → Nat → Nat → Bool → Bool → List ResultLog
  | 0, l, _, _, _, _, _ => l
  | fuel + 1, l, a, b, limit, wasBalanced, wasPartitioned =>
      let length := b - a
      if length ≤ 12 then insertionSortGo l a b
      else if limit = 0 then heapSortGo l a b
      else
        let l := if wasBalanced then l else breakPatternsGo l a b
        let limit := if wasBalanced then limit else limit - 1
        match choosePivotGo l a b with
        | (pivot0, hint0) =>
            let l := if hint0 = 2 then reverseRangeGo l a b else l
            let pivot := if hint0 = 2 then (b - 1) - (pivot0 - a) else pivot0
            let hint := if hint0 = 2 then 1 else hint0
            let attempt :=
              if wasBalanced && wasPartitioned && hint = 1 then partInsSortGo l a b
              else (l, false)
            if attempt.2 then attempt.1
            else
              let l := attempt.1
              if 0 < a ∧ lless l (a - 1) pivot = false then
                match partitionEqualGo l a b pivot with
                | (mid, l2) => pdqsortGo fuel l2 mid b limit wasBalanced wasPartitioned
              else
                match partitionGo l a b pivot with
                | (mid, alreadyPartitioned, l2) =>
                    let leftLen := mid - a
                    let rightLen := b - mid
                    let newBalanced := decide (min leftLen rightLen ≥ length / 8)
                    if leftLen < rightLen then
                      pdqsortGo fuel (pdqsortGo fuel l2 a mid limit true true)
                        (mid + 1) b limit newBalanced alreadyPartitioned
                    else
                      pdqsortGo fuel (pdqsortGo fuel l2 (mid + 1) b limit true true)
                        a mid limit newBalanced alreadyPartitioned

/-- Go `sort.Slice` on a result list with the `mergeResults` comparison:
pdqsort over the whole range with `limit = bits.Len(n)`. -/
def sortSliceResults (l : List ResultLog) : List ResultLog :=
  pdqsortGo (l.length + 1) l 0 l.length (bitsLen l.length) true true

/-- Translation of `timestampWriter.mergeResults`: flush the receiver (only
the receiver), concatenate the receiver's entries with every other writer's
entries, and sort by capture timestamp with `sort.Slice`. -/
def mergeResults (w : TimestampWriter) (others : List TimestampWriter) : List ResultLog :=
  let w1 := twFlush w
  sortSliceResults (w1.results ++ (others.map fun o => o.results).flatten)

/-- The stdout writer of the C7 evaluation: seven captured entries, six
sharing capture tick `2` and one at tick `1`. -/
def demoStdout : TimestampWriter :=
  ⟨"stdout", false, [], 0,
    [⟨2, "s0", "stdout"⟩, ⟨2, "s1", "stdout"⟩, ⟨2, "s2", "stdout"⟩,
     ⟨2, "s3", "stdout"⟩, ⟨2, "s4", "stdout"⟩, ⟨2, "s5", "stdout"⟩,
     ⟨1, "s6", "stdout"⟩]⟩

/-- The stderr writer of the C7 evaluation: six entries at tick `2`. -/
def demoStderr : TimestampWriter :=
  ⟨"stderr", false, [], 0,
    [⟨2, "e0", "stderr"⟩, ⟨2, "e1", "stderr"⟩, ⟨2, "e2", "stderr"⟩,
     ⟨2, "e3", "stderr"⟩, ⟨2, "e4", "stderr"⟩, ⟨2, "e5", "stderr"⟩]⟩

/-- A small stdout writer with entries at ticks 1 and 3. -/
def demoSmallStdout : TimestampWriter :=
  ⟨"stdout", false, [], 0, [⟨1, "a1", "stdout"⟩, ⟨3, "a3", "stdout"⟩]⟩

/-- A small stderr writer with one entry at tick 2. -/
def demoSmallStderr : TimestampWriter :=
  ⟨"stderr", false, [], 0, [⟨2, "b2", "stderr"⟩]⟩

/-- C7: the merge is sorted by timestamp and, for the claim's scenario of
stdout entries at ticks `[1, 3]` and a stderr entry at tick `2`, yields the
tick order `[1, 2, 3]` with either writer as the receiver. But the sort is
NOT stable: `mergeResults` sorts with Go `sort.Slice` (pdqsort), and on a
thirteen-entry merge whose first partition swaps equal-timestamp entries,
the six stdout entries sharing tick `2` come out in the order
`s3, s2, s0, s4, s5, s1` — not their source order — so the claim's
stability clause fails on the code. -/
theorem mergeResults_not_stable :
    mergeResults demoStdout [demoStderr] =
      [⟨1, "s6", "stdout"⟩, ⟨2, "s3", "stdout"⟩, ⟨2, "s2", "stdout"⟩,
       ⟨2, "s0", "stdout"⟩, ⟨2, "s4", "stdout"⟩, ⟨2, "s5", "stdout"⟩,
       ⟨2, "s1", "stdout"⟩, ⟨2, "e0", "stderr"⟩, ⟨2, "e1", "stderr"⟩,
       ⟨2, "e2", "stderr"⟩, ⟨2, "e3", "stderr"⟩, ⟨2, "e4", "stderr"⟩,
       ⟨2, "e5", "stderr"⟩] ∧
    (mergeResults demoStdout [demoStderr]).filter (fun r => r.timestamp = 2) ≠
      (demoStdout.results ++ demoStderr.results).filter (fun r => r.timestamp = 2) ∧
    mergeResults demoSmallStdout [demoSmallStderr] =
      [⟨1, "a1", "stdout"⟩, ⟨2, "b2", "stderr"⟩, ⟨3, "a3", "stdout"⟩] ∧
    mergeResults demoSmallStderr [demoSmallStdout] =
      [⟨1, "a1", "stdout"⟩, ⟨2, "b2", "stderr"⟩, ⟨3, "a3", "stdout"⟩] :=
  ⟨rfl, by decide, rfl, rfl⟩

/-- C8 (counterexample): after the chunk `"a\n"` arrives at tick `1`, the
trailing recursive `Write` of the empty remainder re-stamps
`lastWriteStart` at tick `1`; the next line `"b"`, whose first (and only)
content byte arrives at tick `5`, is therefore recorded with capture
timestamp `1`, not the time its first byte was received. -/
theorem twWrite_timestamp_counterexample :
    (twWriteAll (freshWriter "stdout") [(1, "a\n"), (5, "b\n")]).results =
      [⟨1, "a", "stdout"⟩, ⟨1, "b", "stdout"⟩] ∧
    ((twWriteAll (freshWriter "stdout") [(1, "a\n"), (5, "b\n")]).results.getD 1
        ⟨0, "", ""⟩).timestamp ≠ 5 :=
  ⟨rfl, by decide⟩

/-- Spec-side view of the byte stream: every byte of a chunk tagged with the
chunk's arrival tick. -/
def timedStream (chunks : List (Nat × String)) : List (Nat × Char) :=
  (chunks.map fun c => c.2.toList.map fun ch => (c.1, ch)).flatten

/-- The line completed when the terminator arrives at tick `t` with pending
segment `cur`: the segment itself, or an empty line stamped at the
terminator's tick. -/
def lineHead : Option (Nat × List Char) → Nat → Nat × List Char
  | none, t => (t, [])
  | some (t0, acc), _ => (t0, acc)

/-- The pending segment after terminator-free bytes arriving at tick `t`
are appended. -/
def extendCur : Option (Nat × List Char) → Nat → List Char → Option (Nat × List Char)
  | cur, _, [] => cur
  | none, t, c :: cs => some (t, c :: cs)
  | some (t0, acc), _, cs => some (t0, acc ++ cs)

/-- Spec-side line reconstruction over a timed byte stream: split at the
line terminator; each completed line carries the tick of its first byte
(the terminator itself for an empty line); also return the pending
unterminated segment (its first byte's tick and its content). -/
def lineSplit : Option (Nat × List Char) → List (Nat × Char) →
    List (Nat × List Char) × Option (Nat × List Char)
  | cur, [] => ([], cur)
  | cur, (t, c) :: rest =>
      if c = '\n' then
        let r := lineSplit none rest
        (lineHead cur t :: r.1, r.2)
      else lineSplit (extendCur cur t [c]) rest

/-- The writer state corresponding to a pending segment: an empty buffer
with a zero stamp, or the segment's bytes buffered with its (positive)
first-byte tick stamped. -/
def RW (w : TimestampWriter) : Option (Nat × List Char) → Prop
  | none => w.buf = [] ∧ w.lastWriteStart = 0
  | some (t0, acc) => w.buf = acc ∧ w.lastWriteStart = t0 ∧ 1 ≤ t0

/-- The `ResultLog` recorded for a completed spec-side line. -/
def convLine (pipe : String) (p : Nat × List Char) : ResultLog :=
  ⟨p.1, ⟨goTrimRightList p.2⟩, pipe⟩

theorem goSplitOnce_newline_none (s : List Char) (h : goSplitOnce ['\n'] s = none) :
    '\n' ∉ s := by
  induction s with
  | nil => intro hmem; cases hmem
  | cons c rest ih =>
      intro hmem
      unfold goSplitOnce at h
      by_cases hc : listIsPre ['\n'] (c :: rest) = true
      · rw [if_pos hc] at h; cases h
      · rw [if_neg hc] at h
        have hcne : ¬c = '\n' := by
          intro hceq
          apply hc
          rw [hceq]
          simp [listIsPre]
        cases hmem with
        | head => exact hcne rfl
        | tail _ hmem2 =>
            cases hrec : goSplitOnce ['\n'] rest with
            | some pr => rw [hrec] at h; cases h
            | none => exact ih hrec hmem2

theorem goSplitOnce_newline_some (s pre post : List Char)
    (h : goSplitOnce ['\n'] s = some (pre, post)) :
    s = pre ++ '\n' :: post ∧ '\n' ∉ pre := by
  induction s generalizing pre with
  | nil => simp [goSplitOnce] at h
  | cons c rest ih =>
      unfold goSplitOnce at h
      by_cases hc : listIsPre ['\n'] (c :: rest) = true
      · rw [if_pos hc] at h
        have hceq : c = '\n' := by
          simp [listIsPre] at hc
          exact hc.symm
        injection h with h
        injection h with h1 h2
        constructor
        · rw [← h1, ← h2, hceq]
          rfl
        · rw [← h1]; intro hmem; cases hmem
      · rw [if_neg hc] at h
        have hcne : ¬c = '\n' := by
          intro hceq
          apply hc
          rw [hceq]
          simp [listIsPre]
        cases hrec : goSplitOnce ['\n'] rest with
        | none => rw [hrec] at h; cases h
        | some pr =>
            rw [hrec] at h
            injection h with h
            injection h with h1 h2
            rcases ih pr.1 (by rw [hrec, ← h2]) with ⟨hrest, hnotin⟩
            constructor
            · rw [← h1, List.cons_append, ← hrest]
            · rw [← h1]
              intro hmem
              cases hmem with
              | head => exact hcne rfl
              | tail _ hm2 => exact hnotin hm2

theorem extendCur_cons (cur : Option (Nat × List Char)) (t : Nat) (c : Char)
    (cs : List Char) :
    extendCur (extendCur cur t [c]) t cs = extendCur cur t (c :: cs) := by
  cases cur with
  | none => cases cs <;> simp [extendCur]
  | some p =>
      obtain ⟨t0, acc⟩ := p
      cases cs <;> simp [extendCur]

theorem lineSplit_noNewline (t : Nat) (pre : List Char) (hnn : '\n' ∉ pre) :
    ∀ cur, lineSplit cur (pre.map fun c => (t, c)) = ([], extendCur cur t pre) := by
  induction pre with
  | nil => intro cur; simp [lineSplit, extendCur]
  | cons c cs ih =>
      intro cur
      have hc : ¬c = '\n' := by
        intro h
        exact hnn (by rw [← h]; exact List.mem_cons_self c cs)
      have hcs : '\n' ∉ cs := fun h => hnn (List.mem_cons_of_mem c h)
      simp only [List.map_cons, lineSplit, if_neg hc]
      rw [ih hcs (extendCur cur t [c]), extendCur_cons]

theorem lineSplit_append (s1 s2 : List (Nat × Char)) : ∀ cur,
    lineSplit cur (s1 ++ s2) =
      ((lineSplit cur s1).1 ++ (lineSplit (lineSplit cur s1).2 s2).1,
       (lineSplit (lineSplit cur s1).2 s2).2) := by
  induction s1 with
  | nil => intro cur; simp [lineSplit]
  | cons p rest ih =>
      intro cur
      obtain ⟨t, c⟩ := p
      by_cases hc : c = '\n'
      · subst hc
        simp only [List.cons_append, lineSplit, if_pos, if_true, eq_self_iff_true,
          List.append_eq]
        rw [ih none]
      · simp only [List.cons_append, lineSplit, if_neg hc]
        exact ih (extendCur cur t [c])

theorem goTrimRight_append_newline (l : List Char) :
    goTrimRightList (l ++ ['\n']) = goTrimRightList l := by
  unfold goTrimRightList
  rw [List.reverse_append]
  have h1 : List.reverse ['\n'] = ['\n'] := rfl
  rw [h1, List.singleton_append, List.dropWhile_cons_of_pos (by decide)]

theorem twFlush_record (pipe : String) (pa : Bool) (buf : List Char) (lws : Nat)
    (res : List ResultLog) (hne : ¬buf = []) (hpa : pa = false) :
    twFlush ⟨pipe, pa, buf, lws, res⟩ =
      ⟨pipe, pa, [], 0, res ++ [⟨lws, ⟨goTrimRightList buf⟩, pipe⟩]⟩ := by
  unfold twFlush
  simp only [hpa, Bool.false_and, Bool.false_eq_true, if_false]
  rw [if_neg hne]

theorem twWriteFuel_spec (pipe : String) : ∀ (fuel : Nat) (p : List Char) (t : Nat)
    (w : TimestampWriter) (cur : Option (Nat × List Char)),
    p.length < fuel → 1 ≤ t → p ≠ [] → p.getLast? ≠ some '\n' →
    w.pipe = pipe → w.progressAttached = false → RW w cur →
    (twWriteFuel t fuel w p).pipe = pipe ∧
    (twWriteFuel t fuel w p).progressAttached = false ∧
    (twWriteFuel t fuel w p).results =
      w.results ++ (lineSplit cur (p.map fun c => (t, c))).1.map (convLine pipe) ∧
    RW (twWriteFuel t fuel w p) (lineSplit cur (p.map fun c => (t, c))).2 := by
  intro fuel
  induction fuel with
  | zero => intro p t w cur hlen; omega
  | succ fuel ih =>
      intro p t w cur hlen ht hpne hplast hwp0 hwpa0 hRW
      obtain ⟨wp, wpa, wbuf, wlws, wres⟩ := w
      have hwp : pipe = wp := hwp0.symm
      subst hwp
      have hwpa : wpa = false := hwpa0
      subst hwpa
      cases cur with
      | none =>
          obtain ⟨hbuf, hlws⟩ := hRW
          have hbuf' : wbuf = [] := hbuf
          have hlws' : wlws = 0 := hlws
          subst hbuf'
          subst hlws'
          cases hsplit : goSplitOnce ['\n'] p with
          | none =>
              have hnn : '\n' ∉ p := goSplitOnce_newline_none p hsplit
              have hstep : twWriteFuel t (fuel + 1) ⟨pipe, false, [], 0, wres⟩ p =
                  ⟨pipe, false, [] ++ p, t, wres⟩ := by
                simp only [twWriteFuel, hsplit, eq_self_iff_true, if_true]
              rw [hstep, lineSplit_noNewline t p hnn none]
              refine ⟨rfl, rfl, by simp, ?_⟩
              cases p with
              | nil => exact absurd rfl hpne
              | cons c cs => exact ⟨rfl, rfl, ht⟩
          | some pr =>
              obtain ⟨pre, post⟩ := pr
              obtain ⟨hpeq, hprenn⟩ := goSplitOnce_newline_some p pre post hsplit
              have hpostne : post ≠ [] := by
                intro hpost
                rw [hpost] at hpeq
                rw [hpeq] at hplast
                exact hplast (List.getLast?_append_cons pre '\n' [])
              have hpostlast : post.getLast? ≠ some '\n' := by
                rw [hpeq] at hplast
                rw [List.getLast?_append_cons pre '\n' post] at hplast
                cases post with
                | nil => exact absurd rfl hpostne
                | cons d ds => rw [List.getLast?_cons_cons] at hplast; exact hplast
              have hpostlen : post.length < fuel := by
                have hl := congrArg List.length hpeq
                simp [List.length_append] at hl
                omega
              have hstep : twWriteFuel t (fuel + 1) ⟨pipe, false, [], 0, wres⟩ p =
                  twWriteFuel t fuel
                    ⟨pipe, false, [], 0,
                      wres ++ [⟨t, ⟨goTrimRightList pre⟩, pipe⟩]⟩ post := by
                simp only [twWriteFuel, hsplit, eq_self_iff_true, if_true]
                rw [twFlush_record pipe false ([] ++ (pre ++ ['\n'])) t wres
                  (by simp) rfl]
                rw [List.nil_append, goTrimRight_append_newline]
              have hspec : lineSplit none (p.map fun c => (t, c)) =
                  ((lineHead (extendCur none t pre) t) ::
                      (lineSplit none (post.map fun c => (t, c))).1,
                    (lineSplit none (post.map fun c => (t, c))).2) := by
                rw [hpeq, List.map_append, lineSplit_append, List.map_cons,
                  lineSplit_noNewline t pre hprenn none]
                simp [lineSplit]
              have hhead : convLine pipe (lineHead (extendCur none t pre) t) =
                  ⟨t, ⟨goTrimRightList pre⟩, pipe⟩ := by
                cases pre with
                | nil => rfl
                | cons c cs => rfl
              rw [hstep, hspec]
              rcases ih post t
                  ⟨pipe, false, [], 0, wres ++ [⟨t, ⟨goTrimRightList pre⟩, pipe⟩]⟩
                  none hpostlen ht hpostne hpostlast rfl rfl ⟨rfl, rfl⟩ with
                ⟨ha, hb, hc, hd⟩
              refine ⟨ha, hb, ?_, hd⟩
              rw [hc]
              simp [hhead]
      | some p0 =>
          obtain ⟨t0, acc⟩ := p0
          obtain ⟨hbuf, hlws, ht0⟩ := hRW
          have hbuf' : acc = wbuf := hbuf.symm
          subst hbuf'
          have hlws' : t0 = wlws := hlws.symm
          subst hlws'
          have ht0ne : ¬t0 = 0 := by omega
          cases hsplit : goSplitOnce ['\n'] p with
          | none =>
              have hnn : '\n' ∉ p := goSplitOnce_newline_none p hsplit
              have hstep : twWriteFuel t (fuel + 1) ⟨pipe, false, acc, t0, wres⟩ p =
                  ⟨pipe, false, acc ++ p, t0, wres⟩ := by
                simp only [twWriteFuel, hsplit, if_neg ht0ne]
              rw [hstep, lineSplit_noNewline t p hnn (some (t0, acc))]
              refine ⟨rfl, rfl, by simp, ?_⟩
              cases p with
              | nil => exact absurd rfl hpne
              | cons c cs => exact ⟨rfl, rfl, ht0⟩
          | some pr =>
              obtain ⟨pre, post⟩ := pr
              obtain ⟨hpeq, hprenn⟩ := goSplitOnce_newline_some p pre post hsplit
              have hpostne : post ≠ [] := by
                intro hpost
                rw [hpost] at hpeq
                rw [hpeq] at hplast
                exact hplast (List.getLast?_append_cons pre '\n' [])
              have hpostlast : post.getLast? ≠ some '\n' := by
                rw [hpeq] at hplast
                rw [List.getLast?_append_cons pre '\n' post] at hplast
                cases post with
                | nil => exact absurd rfl hpostne
                | cons d ds => rw [List.getLast?_cons_cons] at hplast; exact hplast
              have hpostlen : post.length < fuel := by
                have hl := congrArg List.length hpeq
                simp [List.length_append] at hl
                omega
              have hstep : twWriteFuel t (fuel + 1) ⟨pipe, false, acc, t0, wres⟩ p =
                  twWriteFuel t fuel
                    ⟨pipe, false, [], 0,
                      wres ++ [⟨t0, ⟨goTrimRightList (acc ++ pre)⟩, pipe⟩]⟩ post := by
                simp only [twWriteFuel, hsplit, if_neg ht0ne]
                rw [twFlush_record pipe false (acc ++ (pre ++ ['\n'])) t0 wres
                  (by simp) rfl]
                rw [← List.append_assoc, goTrimRight_append_newline]
              have hspec : lineSplit (some (t0, acc)) (p.map fun c => (t, c)) =
                  ((lineHead (extendCur (some (t0, acc)) t pre) t) ::
                      (lineSplit none (post.map fun c => (t, c))).1,
                    (lineSplit none (post.map fun c => (t, c))).2) := by
                rw [hpeq, List.map_append, lineSplit_append, List.map_cons,
                  lineSplit_noNewline t pre hprenn (some (t0, acc))]
                simp [lineSplit]
              have hhead : convLine pipe (lineHead (extendCur (some (t0, acc)) t pre) t) =
                  ⟨t0, ⟨goTrimRightList (acc ++ pre)⟩, pipe⟩ := by
                cases pre with
                | nil => simp [extendCur, lineHead, convLine]
                | cons c cs => rfl
              rw [hstep, hspec]
              rcases ih post t
                  ⟨pipe, false, [], 0,
                    wres ++ [⟨t0, ⟨goTrimRightList (acc ++ pre)⟩, pipe⟩]⟩
                  none hpostlen ht hpostne hpostlast rfl rfl ⟨rfl, rfl⟩ with
                ⟨ha, hb, hc, hd⟩
              refine ⟨ha, hb, ?_, hd⟩
              rw [hc]
              simp [hhead]

theorem twWriteAll_spec (pipe : String) : ∀ (chunks : List (Nat × String))
    (w : TimestampWriter) (cur : Option (Nat × List Char)),
    (∀ c ∈ chunks, c.2.toList ≠ [] ∧ c.2.toList.getLast? ≠ some '\n' ∧ 1 ≤ c.1) →
    w.pipe = pipe → w.progressAttached = false → RW w cur →
    (twWriteAll w chunks).pipe = pipe ∧
    (twWriteAll w chunks).progressAttached = false ∧
    (twWriteAll w chunks).results =
      w.results ++ (lineSplit cur (timedStream chunks)).1.map (convLine pipe) ∧
    RW (twWriteAll w chunks) (lineSplit cur (timedStream chunks)).2 := by
  intro chunks
  induction chunks with
  | nil =>
      intro w cur hall hwp hwpa hRW
      exact ⟨hwp, hwpa, by simp [twWriteAll, timedStream, lineSplit], hRW⟩
  | cons c cs ih =>
      intro w cur hall hwp hwpa hRW
      obtain ⟨t, s⟩ := c
      have hc := hall (t, s) (List.mem_cons_self _ _)
      have hstep : twWriteAll w ((t, s) :: cs) =
          twWriteAll (twWriteFuel t (s.toList.length + 1) w s.toList) cs := rfl
      have h1 := twWriteFuel_spec pipe (s.toList.length + 1) s.toList t w cur
        (by omega) hc.2.2 hc.1 hc.2.1 hwp hwpa hRW
      obtain ⟨h1p, h1a, h1r, h1w⟩ := h1
      have h2 := ih (twWriteFuel t (s.toList.length + 1) w s.toList)
        ((lineSplit cur (s.toList.map fun ch => (t, ch))).2)
        (fun d hd => hall d (List.mem_cons_of_mem _ hd)) h1p h1a h1w
      obtain ⟨h2p, h2a, h2r, h2w⟩ := h2
      have hts : timedStream ((t, s) :: cs) =
          (s.toList.map fun ch => (t, ch)) ++ timedStream cs := by
        simp [timedStream]
      rw [hstep]
      refine ⟨h2p, h2a, ?_, ?_⟩
      · rw [h2r, h1r, hts, lineSplit_append]
        simp [List.map_append]
      · rw [hts, lineSplit_append]
        exact h2w

/-- **C8** (amended): as long as no single `Write` call's payload ends exactly
at a line terminator (each chunk is nonempty and does not end in a newline,
and arrival ticks are positive), every completed log line recorded by the
timestamp writer carries the arrival tick of the *first byte* of that line's
content — the writer's results coincide with the spec-side first-byte line
reconstruction `lineSplit` over the timed byte stream. (When a chunk does end
in a newline, the writer's recursive empty-tail write re-stamps
`lastWriteStart` with that chunk's time, so the *next* line inherits the
previous chunk's timestamp; see the counterexample.) -/
theorem twWrite_first_byte_timestamp (pipe : String) (chunks : List (Nat × String))
    (h : ∀ c ∈ chunks, c.2.toList ≠ [] ∧ c.2.toList.getLast? ≠ some '\n' ∧ 1 ≤ c.1) :
    (twWriteAll (freshWriter pipe) chunks).results =
      (lineSplit none (timedStream chunks)).1.map (convLine pipe) := by
  have hmain := twWriteAll_spec pipe chunks (freshWriter pipe) none h rfl rfl ⟨rfl, rfl⟩
  simpa using hmain.2.2.1

theorem twWrite_first_byte_timestamp_witness :
    (∀ c ∈ [((3 : Nat), "ab"), ((7 : Nat), "c\nd")],
        c.2.toList ≠ [] ∧ c.2.toList.getLast? ≠ some '\n' ∧ 1 ≤ c.1) ∧
    (twWriteAll (freshWriter "stdout") [(3, "ab"), (7, "c\nd")]).results =
      (lineSplit none (timedStream [(3, "ab"), (7, "c\nd")])).1.map (convLine "stdout") :=
  ⟨by decide, twWrite_first_byte_timestamp "stdout" [(3, "ab"), (7, "c\nd")] (by decide)⟩
